import Mathlib

/-
Verification development for the plexus half-edge mesh core.

The definitions below are a shallow embedding of the Rust sources:
  src/src/graph/storage.rs            (generational keyed storage)
  src/src/graph/mutation/mod.rs       (Mutate::commit_with, Replace)
  src/src/graph/mutation/vertex.rs    (VertexMutation)
  src/plexus/src/graph/mutation/edge.rs  (EdgeMutation::get_or_insert_edge_with, connect helpers)
  src/plexus/src/graph/mutation/face.rs  (FaceInsertCache, FaceRemoveCache, FaceSplitCache,
                                          insert_with, remove, split, connect_face_*)
  src/plexus/src/graph/face.rs        (Ringoid::distance, ArcCirculator::next, FaceView::split,
                                       FaceView::triangulate, DynamicArity::arity)
  src/plexus/src/graph/path.rs        (Path::bind, push/pop)

Vertex keys are Nat (the single-part u64 generator of storage.rs, advancing
with wrap at 2^64); arc keys are ordered pairs of vertex keys (derived from
endpoints, as in the source); edge and face keys are Nat drawn from the same
kind of generator.  User
geometry is represented by a Nat payload field (its value is never interpreted
by the topological code).  Storages are association lists with distinct keys,
standing for the HashMap / slot-map containers of the source.
-/

set_option maxHeartbeats 1000000

deriving instance DecidableEq for Except

namespace Plexus

/-- Graph errors, mirroring GraphError in the source. -/
inductive GraphError where
  | topologyNotFound
  | topologyMalformed
  | topologyConflict
  | arityNonUniform
  | geometry
  deriving DecidableEq

/-- Vertex selector, mirroring Selector: by key or by 0-based index in ring order. -/
inductive Selector where
  | byKey : Nat → Selector
  | byIndex : Nat → Selector
  deriving DecidableEq

abbrev VertexKey := Nat
abbrev ArcKey := Nat × Nat
abbrev EdgeKey := Nat
abbrev FaceKey := Nat

/-- Opposite arc key: the reversed endpoint pair, as ArcKey::into_opposite. -/
def ArcKey.opposite (k : ArcKey) : ArcKey := (k.2, k.1)

/-- Vertex payload: geometry plus the optional leading (outgoing) arc. -/
structure VertexPayload where
  geometry : Nat
  arc : Option ArcKey
  deriving DecidableEq

/-- Arc payload: geometry plus next/previous ring links and owning edge/face. -/
structure ArcPayload where
  geometry : Nat
  next : Option ArcKey
  previous : Option ArcKey
  edge : Option EdgeKey
  face : Option FaceKey
  deriving DecidableEq

/-- ArcPayload::new: fresh arc with geometry and no connectivity. -/
def ArcPayload.new (g : Nat) : ArcPayload := ⟨g, none, none, none, none⟩

/-- Edge payload: geometry plus the leading arc key (EdgePayload::new(ab, geometry)). -/
structure EdgePayload where
  geometry : Nat
  arc : ArcKey
  deriving DecidableEq

/-- Face payload: geometry plus the leading arc key (Face::new(arc, geometry)). -/
structure FacePayload where
  geometry : Nat
  arc : ArcKey
  deriving DecidableEq

section KV

variable {κ : Type} {α : Type} [DecidableEq κ]

/-- Map lookup on an association list (HashMap::get): first entry with the key. -/
def kvGet (l : List (κ × α)) (k : κ) : Option α :=
  (l.find? (fun e => decide (e.1 = k))).map (fun e => e.2)

/-- Map insert (HashMap::insert): overwrite the entry if the key is present,
otherwise append a new entry. -/
def kvInsert (l : List (κ × α)) (k : κ) (v : α) : List (κ × α) :=
  if l.any (fun e => decide (e.1 = k)) then
    l.map (fun e => if e.1 = k then (k, v) else e)
  else l ++ [(k, v)]

/-- Map removal (HashMap::remove): drop the entry with the key. -/
def kvRemove (l : List (κ × α)) (k : κ) : List (κ × α) :=
  l.filter (fun e => decide (¬ e.1 = k))

theorem kvGet_nil (k : κ) : kvGet ([] : List (κ × α)) k = none := rfl

theorem kvGet_cons (e : κ × α) (l : List (κ × α)) (k : κ) :
    kvGet (e :: l) k = if e.1 = k then some e.2 else kvGet l k := by
  unfold kvGet
  by_cases h : e.1 = k
  · simp [List.find?, h]
  · simp [List.find?, h]

theorem kvAny_of_get_isSome (l : List (κ × α)) (k : κ)
    (h : (kvGet l k).isSome) : l.any (fun e => decide (e.1 = k)) := by
  induction l with
  | nil => simp [kvGet_nil] at h
  | cons e es ih =>
    rw [kvGet_cons] at h
    by_cases he : e.1 = k
    · simp [he]
    · rw [if_neg he] at h
      simp [he, ih h]

theorem kvAny_iff_get_isSome (l : List (κ × α)) (k : κ) :
    l.any (fun e => decide (e.1 = k)) ↔ (kvGet l k).isSome := by
  constructor
  · intro h
    induction l with
    | nil => exact absurd h (by simp)
    | cons e es ih =>
      rw [kvGet_cons]
      by_cases he : e.1 = k
      · simp [he]
      · rw [if_neg he]
        have h2 : es.any (fun e => decide (e.1 = k)) := by
          simp only [List.any_cons] at h
          rcases (Bool.or_eq_true _ _).mp h with h1 | h1
          · exact absurd (of_decide_eq_true h1) he
          · exact h1
        exact ih h2
  · exact kvAny_of_get_isSome l k

theorem kvGet_insert_self (l : List (κ × α)) (k : κ) (v : α) :
    kvGet (kvInsert l k v) k = some v := by
  unfold kvInsert
  by_cases h : l.any (fun e => decide (e.1 = k))
  · simp only [if_pos h]
    induction l with
    | nil => simp at h
    | cons e es ih =>
      by_cases he : e.1 = k
      · simp [kvGet_cons, he]
      · have hes : es.any (fun e => decide (e.1 = k)) := by
          simp only [List.any_cons, he] at h
          simpa using h
        rw [List.map_cons, if_neg he, kvGet_cons, if_neg he]
        exact ih hes
  · simp only [if_neg h]
    induction l with
    | nil => simp [kvGet_cons]
    | cons e es ih =>
      have he : ¬ e.1 = k := fun hk => h (by simp [List.any_cons, hk])
      have hes : ¬ es.any (fun e => decide (e.1 = k)) :=
        fun hk => h (by simp [List.any_cons, hk])
      rw [List.cons_append, kvGet_cons, if_neg he]
      exact ih hes

theorem kvGet_map_set_ne (l : List (κ × α)) (k k' : κ) (v : α) (h : k' ≠ k) :
    kvGet (l.map (fun e => if e.1 = k then (k, v) else e)) k' = kvGet l k' := by
  have hkk : ¬ (k = k') := fun hk => h hk.symm
  induction l with
  | nil => rfl
  | cons e es ih =>
    rw [List.map_cons]
    by_cases he : e.1 = k
    · rw [if_pos he, kvGet_cons, kvGet_cons]
      have hek : ¬ e.1 = k' := fun hk => hkk (he ▸ hk)
      simp only [hkk, if_false, hek]
      exact ih
    · rw [if_neg he, kvGet_cons, kvGet_cons]
      by_cases h2 : e.1 = k'
      · simp [h2]
      · rw [if_neg h2, if_neg h2]
        exact ih

theorem kvGet_append_one_ne (l : List (κ × α)) (k k' : κ) (v : α) (h : k' ≠ k) :
    kvGet (l ++ [(k, v)]) k' = kvGet l k' := by
  have hkk : ¬ (k = k') := fun hk => h hk.symm
  induction l with
  | nil => simp [kvGet_cons, kvGet_nil, hkk]
  | cons e es ih =>
    rw [List.cons_append, kvGet_cons, kvGet_cons]
    by_cases h2 : e.1 = k'
    · simp [h2]
    · rw [if_neg h2, if_neg h2]
      exact ih

theorem kvGet_insert_ne (l : List (κ × α)) (k k' : κ) (v : α) (h : k' ≠ k) :
    kvGet (kvInsert l k v) k' = kvGet l k' := by
  unfold kvInsert
  by_cases hp : l.any (fun e => decide (e.1 = k))
  · rw [if_pos hp]
    exact kvGet_map_set_ne l k k' v h
  · rw [if_neg hp]
    exact kvGet_append_one_ne l k k' v h

theorem kvInsert_length_present (l : List (κ × α)) (k : κ) (v : α)
    (h : (kvGet l k).isSome) : (kvInsert l k v).length = l.length := by
  unfold kvInsert
  rw [if_pos (kvAny_of_get_isSome l k h)]
  simp

theorem kvInsert_length_absent (l : List (κ × α)) (k : κ) (v : α)
    (h : kvGet l k = none) : (kvInsert l k v).length = l.length + 1 := by
  unfold kvInsert
  have hp : ¬ l.any (fun e => decide (e.1 = k)) := by
    intro hc
    rw [kvAny_iff_get_isSome] at hc
    rw [h] at hc
    simp at hc
  rw [if_neg hp]
  simp

theorem kvGet_remove_self (l : List (κ × α)) (k : κ) :
    kvGet (kvRemove l k) k = none := by
  unfold kvRemove
  induction l with
  | nil => rfl
  | cons e es ih =>
    by_cases he : e.1 = k
    · rw [List.filter_cons_of_neg (by simp [he])]
      exact ih
    · rw [List.filter_cons_of_pos (by simp [he])]
      rw [kvGet_cons, if_neg he]
      exact ih

theorem kvGet_remove_ne (l : List (κ × α)) (k k' : κ) (h : k' ≠ k) :
    kvGet (kvRemove l k) k' = kvGet l k' := by
  unfold kvRemove
  induction l with
  | nil => rfl
  | cons e es ih =>
    by_cases he : e.1 = k
    · have hne : ¬ e.1 = k' := fun hk => h (by rw [← hk, he])
      rw [List.filter_cons_of_neg (by simp [he])]
      rw [kvGet_cons, if_neg hne]
      exact ih
    · rw [List.filter_cons_of_pos (by simp [he])]
      rw [kvGet_cons, kvGet_cons]
      by_cases h2 : e.1 = k'
      · simp [h2]
      · rw [if_neg h2, if_neg h2]
        exact ih

theorem kvRemove_length_present (l : List (κ × α)) (k : κ)
    (hn : (l.map Prod.fst).Nodup) (h : (kvGet l k).isSome) :
    (kvRemove l k).length + 1 = l.length := by
  unfold kvRemove
  induction l with
  | nil => simp [kvGet_nil] at h
  | cons e es ih =>
    rw [List.map_cons, List.nodup_cons] at hn
    rw [kvGet_cons] at h
    by_cases he : e.1 = k
    · rw [List.filter_cons_of_neg (by simp [he])]
      have hnone : ∀ e' ∈ es, ¬ e'.1 = k := by
        intro e' hm hk
        exact hn.1 (he ▸ hk ▸ List.mem_map_of_mem Prod.fst hm)
      have heq : es.filter (fun e => decide (¬ e.1 = k)) = es := by
        apply List.filter_eq_self.mpr
        intro e' hm
        simpa using hnone e' hm
      rw [heq]
      simp
    · rw [List.filter_cons_of_pos (by simp [he])]
      rw [if_neg he] at h
      simp only [List.length_cons]
      rw [ih hn.2 h]

end KV

/-- Keyed storage with a single-part u64 key generator
(src/src/graph/storage.rs, Storage with Generator = Key); the generator value
is a Nat kept below 2^64 by the wrapping insert. -/
structure KStorage (α : Type) where
  gen : Nat
  entries : List (Nat × α)
  deriving DecidableEq

/-- Storage::new: default generator (Key(0)) and empty map. -/
def KStorage.new {α : Type} : KStorage α := ⟨0, []⟩

/-- Storage::insert: the returned key is the current generator value; the
generator then advances by u64 addition (Key(**self + 1)), which wraps at
2^64 (release-build semantics of the u64 + in Generator for Key). -/
def KStorage.insert {α : Type} (s : KStorage α) (x : α) : KStorage α × Nat :=
  (⟨(s.gen + 1) % 2 ^ 64, kvInsert s.entries s.gen x⟩, s.gen)

/-- Storage::insert_with_key: store a payload under a caller-provided key
(used for arcs, whose keys are derived from endpoints). -/
def KStorage.insertWithKey {α : Type} (s : KStorage α) (k : Nat) (x : α) : KStorage α :=
  ⟨s.gen, kvInsert s.entries k x⟩

/-- Storage lookup (Storage::get). -/
def KStorage.get {α : Type} (s : KStorage α) (k : Nat) : Option α :=
  kvGet s.entries k

/-- Modelled from the spec: the spec's storage contract includes
remove(key) -> Option Payload with no generator reset and no key reuse; the
remove method itself is not part of the sources under src (only callers such
as face::remove use it), so it is modelled from the contract in section 4.1:
delete the entry, leave the generator untouched. -/
def KStorage.remove {α : Type} (s : KStorage α) (k : Nat) : KStorage α × Option α :=
  (⟨s.gen, kvRemove s.entries k⟩, kvGet s.entries k)

/-- Storage::len. -/
def KStorage.len {α : Type} (s : KStorage α) : Nat := s.entries.length

/-- An operation on a keyed storage: an insertion of a payload or a removal of
a key.  Used to state that keys are never reused across arbitrary interleaved
operation sequences. -/
inductive StorageOp (α : Type) where
  | insert : α → StorageOp α
  | remove : Nat → StorageOp α

/-- Apply one operation; an insert reports the key it returned. -/
def applyStorageOp {α : Type} (s : KStorage α) : StorageOp α → KStorage α × Option Nat
  | .insert x =>
    let (s', k) := s.insert x
    (s', some k)
  | .remove k => ((s.remove k).1, none)

/-- Run a sequence of operations, collecting the keys returned by inserts. -/
def runStorageOps {α : Type} (s : KStorage α) : List (StorageOp α) → KStorage α × List Nat
  | [] => (s, [])
  | op :: ops =>
    let (s', k?) := applyStorageOp s op
    let (s'', ks) := runStorageOps s' ops
    (s'', k?.toList ++ ks)

/-- Number of inserts in an operation sequence (each insert advances the
generator once). -/
def countInserts {α : Type} : List (StorageOp α) → Nat
  | [] => 0
  | StorageOp.insert _ :: ops => countInserts ops + 1
  | StorageOp.remove _ :: ops => countInserts ops

/-- The whole mesh storage set (the Core of the source): vertex, arc, edge and
face storages.  Arcs are keyed by their endpoint pair and have no generator. -/
structure Mesh where
  vertices : KStorage VertexPayload
  arcs : List (ArcKey × ArcPayload)
  edges : KStorage EdgePayload
  faces : KStorage FacePayload
  deriving DecidableEq

/-- Default (empty) mesh, the placeholder installed by Replace::mutate. -/
def defaultMesh : Mesh := ⟨KStorage.new, [], KStorage.new, KStorage.new⟩

/-- Arc lookup in the mesh's arc storage. -/
def Mesh.arc (m : Mesh) (k : ArcKey) : Option ArcPayload := kvGet m.arcs k

/-- EdgeMutation::with_arc_mut: run an update on an arc payload, or fail with
TopologyNotFound when the arc is absent. -/
def with_arc_mut (m : Mesh) (ab : ArcKey) (f : ArcPayload → ArcPayload × Option FaceKey) :
    Mesh × Except GraphError (Option FaceKey) :=
  match kvGet m.arcs ab with
  | none => (m, .error .topologyNotFound)
  | some p =>
    let (p', t) := f p
    ({ m with arcs := kvInsert m.arcs ab p' }, .ok t)

/-- EdgeMutation::connect_neighboring_arcs: ab.next := bc and bc.previous := ab. -/
def connect_neighboring_arcs (m : Mesh) (ab bc : ArcKey) : Mesh × Except GraphError Unit :=
  match with_arc_mut m ab (fun p => (⟨p.geometry, some bc, p.previous, p.edge, p.face⟩, none)) with
  | (m1, .error e) => (m1, .error e)
  | (m1, .ok _) =>
    match with_arc_mut m1 bc (fun p => (⟨p.geometry, p.next, some ab, p.edge, p.face⟩, none)) with
    | (m2, .error e) => (m2, .error e)
    | (m2, .ok _) => (m2, .ok ())

/-- EdgeMutation::connect_arc_to_edge: ab.edge := Some(ab_ba). -/
def connect_arc_to_edge (m : Mesh) (ab : ArcKey) (e : EdgeKey) : Mesh × Except GraphError Unit :=
  match with_arc_mut m ab (fun p => (⟨p.geometry, p.next, p.previous, some e, p.face⟩, none)) with
  | (m1, .error err) => (m1, .error err)
  | (m1, .ok _) => (m1, .ok ())

/-- EdgeMutation::connect_arc_to_face: ab.face := Some(abc). -/
def connect_arc_to_face (m : Mesh) (ab : ArcKey) (abc : FaceKey) : Mesh × Except GraphError Unit :=
  match with_arc_mut m ab (fun p => (⟨p.geometry, p.next, p.previous, p.edge, some abc⟩, none)) with
  | (m1, .error err) => (m1, .error err)
  | (m1, .ok _) => (m1, .ok ())

/-- EdgeMutation::disconnect_arc_from_face: take ab.face, returning the old value. -/
def disconnect_arc_from_face (m : Mesh) (ab : ArcKey) :
    Mesh × Except GraphError (Option FaceKey) :=
  with_arc_mut m ab (fun p => (⟨p.geometry, p.next, p.previous, p.edge, none⟩, p.face))

/-- VertexMutation::connect_outgoing_arc: vertex a's leading arc := Some(ab). -/
def connect_outgoing_arc (m : Mesh) (a : VertexKey) (ab : ArcKey) :
    Mesh × Except GraphError Unit :=
  match kvGet m.vertices.entries a with
  | none => (m, .error .topologyNotFound)
  | some vp =>
    ({ m with vertices := ⟨m.vertices.gen, kvInsert m.vertices.entries a ⟨vp.geometry, some ab⟩⟩ },
     .ok ())

/-- VertexMutation::insert_vertex: insert a vertex payload with no leading arc. -/
def insert_vertex (m : Mesh) (g : Nat) : Mesh × VertexKey :=
  let (vs, k) := m.vertices.insert ⟨g, none⟩
  ({ m with vertices := vs }, k)

/-- FaceMutation::connect_face_to_arc: face abc's leading arc := ab. -/
def connect_face_to_arc (m : Mesh) (ab : ArcKey) (abc : FaceKey) :
    Mesh × Except GraphError Unit :=
  match kvGet m.faces.entries abc with
  | none => (m, .error .topologyNotFound)
  | some fp =>
    ({ m with faces := ⟨m.faces.gen, kvInsert m.faces.entries abc ⟨fp.geometry, ab⟩⟩ }, .ok ())

/-- The inner helper get_or_insert_arc_with of get_or_insert_edge_with: if the
arc already exists return its edge field; otherwise insert a fresh arc payload
and (ignoring the result, as the source does) set the source vertex's leading
arc. -/
def get_or_insert_arc_with (m : Mesh) (a b : VertexKey) (g : Nat) :
    Mesh × (Option EdgeKey × ArcKey) :=
  let ab : ArcKey := (a, b)
  match kvGet m.arcs ab with
  | some arc => (m, (arc.edge, ab))
  | none =>
    let m1 : Mesh := { m with arcs := kvInsert m.arcs ab (ArcPayload.new g) }
    let m2 := (connect_outgoing_arc m1 a ab).1
    (m2, (none, ab))

/-- EdgeMutation::get_or_insert_edge_with (mutation/edge.rs lines 35-83). -/
def get_or_insert_edge_with (m : Mesh) (a b : VertexKey) (g : Nat) :
    Mesh × Except GraphError (EdgeKey × ArcKey × ArcKey) :=
  let (m1, r1) := get_or_insert_arc_with m a b g
  let (m2, r2) := get_or_insert_arc_with m1 b a g
  let ab := r1.2
  let ba := r2.2
  match r1.1, r2.1 with
  | some e1, some e2 =>
    if e1 = e2 then (m2, .ok (e1, ab, ba)) else (m2, .error .topologyMalformed)
  | none, none =>
    let (es, k) := m2.edges.insert ⟨0, ab⟩
    let m3 : Mesh := { m2 with edges := es }
    match connect_arc_to_edge m3 ab k with
    | (m4, .error e) => (m4, .error e)
    | (m4, .ok _) =>
      match connect_arc_to_edge m4 ba k with
      | (m5, .error e) => (m5, .error e)
      | (m5, .ok _) => (m5, .ok (k, ab, ba))
  | _, _ => (m2, .error .topologyMalformed)

/-- Modelled from the spec: TraceFirst (crate::graph::trace, whose file is not
under src; only its use in ArcCirculator::next is) records the first key
visited; insert reports whether circulation should continue, i.e. false
exactly when the key equals the recorded first key (section 4.3 of the spec). -/
structure TraceFirst where
  first : Option ArcKey
  deriving DecidableEq

/-- TraceFirst::insert: record the first key; continue unless the key has
closed the cycle by returning to the first key. -/
def TraceFirst.insert (t : TraceFirst) (k : ArcKey) : TraceFirst × Bool :=
  match t.first with
  | none => (⟨some k⟩, true)
  | some f => if k = f then (t, false) else (t, true)

/-- ArcCirculator state: the optional current arc key plus the trace
(face.rs lines 1365-1373). -/
structure CircState where
  arc : Option ArcKey
  trace : TraceFirst
  deriving DecidableEq

/-- ArcCirculator::next (face.rs lines 1375-1394): stop when there is no
current key or the trace refuses the current key; otherwise emit the current
key and advance to that arc's next link (None when the arc or its link is
absent). -/
def circStep (g : ArcKey → Option ArcPayload) (s : CircState) : Option (ArcKey × CircState) :=
  match s.arc with
  | none => none
  | some arc =>
    let (trace, cont) := s.trace.insert arc
    if cont then some (arc, ⟨(g arc).bind (fun p => p.next), trace⟩)
    else none

/-- Run the circulator for at most fuel steps, collecting the emitted keys.
The source iterator is demand-driven and unbounded; all its uses below pass a
fuel that provably exceeds the length of any terminating circulation, so the
truncation is only reachable on circulations on which the source would not
terminate. -/
def circSteps (g : ArcKey → Option ArcPayload) : Nat → CircState → List ArcKey
  | 0, _ => []
  | fuel + 1, s =>
    match circStep g s with
    | none => []
    | some (k, s') => k :: circSteps g fuel s'

/-- Fresh circulator state for a starting arc (From<FaceView> / From<Ring>). -/
def circInit (start : ArcKey) : CircState := ⟨some start, ⟨none⟩⟩

/-- The interior arcs of the ring through an arc: the arc circulator from that
arc, with fuel bounded by the arc storage size. -/
def ringArcs (m : Mesh) (start : ArcKey) : List ArcKey :=
  circSteps (fun k => kvGet m.arcs k) (m.arcs.length + 1) (circInit start)

/-- The vertices of the ring through an arc: destinations of the interior arcs
(VertexCirculator wraps ArcCirculator and emits each arc's destination). -/
def ringVertices (m : Mesh) (start : ArcKey) : List VertexKey :=
  (ringArcs m start).map (fun k => k.2)

/-- DynamicArity::arity for a face: the interior arc count of its ring
(face.rs lines 893-906).  A missing face key yields 0 (a FaceView cannot be
bound to a missing key in the source). -/
def faceArity (m : Mesh) (abc : FaceKey) : Nat :=
  match kvGet m.faces.entries abc with
  | none => 0
  | some fp => (ringArcs m fp.arc).length

/-- The enumerate-and-find of index_of_selector: the index (counting from i)
of the first occurrence of the key. -/
def find_index_from (key : VertexKey) : Nat → List VertexKey → Option Nat
  | _, [] => none
  | i, a :: rest => if a = key then some i else find_index_from key (i + 1) rest

/-- Ringoid::distance selector resolution (face.rs lines 74-90): a keyed
selector resolves to the first ring index holding that key, a positional
selector must lie below the arity. -/
def index_of_selector (vs : List VertexKey) (arity : Nat) : Selector → Except GraphError Nat
  | .byKey key =>
    match find_index_from key 0 vs with
    | some i => .ok i
    | none => .error .topologyNotFound
  | .byIndex index =>
    if arity ≤ index then .error .topologyNotFound else .ok index

/-- Ringoid::distance (face.rs lines 65-95) over the vertex list of a ring:
resolve both selectors and return the circular distance
min(|i - j|, arity - |i - j|), the arity being the vertex count. -/
def distanceOn (vs : List VertexKey) (source destination : Selector) :
    Except GraphError Nat :=
  match index_of_selector vs vs.length source with
  | .error e => .error e
  | .ok i =>
    match index_of_selector vs vs.length destination with
    | .error e => .error e
    | .ok j =>
      .ok (min (((i : Int) - (j : Int)).natAbs)
               (vs.length - ((i : Int) - (j : Int)).natAbs))

/-- FaceView::distance: bind the face and measure on its ring's vertices. -/
def faceDistance (m : Mesh) (abc : FaceKey) (source destination : Selector) :
    Except GraphError Nat :=
  match kvGet m.faces.entries abc with
  | none => .error .topologyNotFound
  | some fp => distanceOn (ringVertices m fp.arc) source destination

/-- Modelled from the spec: the cyclic consecutive-pair adapter perimeter()
(crate::IteratorExt, whose file is not under src; only its call sites are).
Per the spec's face algorithms, a perimeter list yields each element paired
with its cyclic successor. -/
def cyclicPairs {α : Type} : List α → List (α × α)
  | [] => []
  | x :: xs => (x :: xs).zip (xs ++ [x])

/-- Modelled from the spec: VertexView::reachable_incoming_arcs (the vertex
view file is not under src; only its use in FaceInsertCache::snapshot is).
Per the data model, these are the arcs of the storage whose destination is the
vertex; the storage order stands for the source's circulation order. -/
def incoming_arc_keys (m : Mesh) (v : VertexKey) : List ArcKey :=
  (m.arcs.map (fun e => e.1)).filter (fun k => decide (k.2 = v))

/-- Modelled from the spec: VertexView::reachable_outgoing_arcs, as
incoming_arc_keys but for arcs whose source is the vertex. -/
def outgoing_arc_keys (m : Mesh) (v : VertexKey) : List ArcKey :=
  (m.arcs.map (fun e => e.1)).filter (fun k => decide (k.1 = v))

/-- FaceInsertCache (mutation/face.rs lines 200-206): the perimeter and the
incoming/outgoing arc connectivity of its vertices at snapshot time. -/
structure FaceInsertCache where
  perimeter : List VertexKey
  incoming : List (VertexKey × List ArcKey)
  outgoing : List (VertexKey × List ArcKey)
  deriving DecidableEq

/-- One candidate interior arc bound as a view: the key with its payload, when
present (ArcView::bind). -/
def boundArc (m : Mesh) (k : ArcKey) : Option (ArcKey × ArcPayload) :=
  (kvGet m.arcs k).map (fun p => (k, p))

/-- ArcView::reachable_next_arc: the next link bound in storage. -/
def reachable_next_arc (m : Mesh) (p : ArcPayload) : Option ArcKey :=
  p.next.bind (fun nk => (kvGet m.arcs nk).map (fun _ => nk))

/-- The precondition loop of FaceInsertCache::snapshot (mutation/face.rs lines
240-268) over cyclic pairs of optionally-bound candidate arcs: an existing
candidate must be unoccupied, and an existing candidate followed by a missing
one must not have a next neighbor leading back into the perimeter set. -/
def face_insert_check (m : Mesh) (set : List VertexKey) :
    List (Option (ArcKey × ArcPayload) × Option (ArcKey × ArcPayload)) →
    Except GraphError Unit
  | [] => .ok ()
  | (previous, next) :: rest =>
    match previous with
    | none => face_insert_check m set rest
    | some pv =>
      if pv.2.face.isSome then .error .topologyConflict
      else
        match next with
        | some _ => face_insert_check m set rest
        | none =>
          match reachable_next_arc m pv.2 with
          | none => face_insert_check m set rest
          | some nk =>
            if nk.2 ∈ set then .error .topologyConflict
            else face_insert_check m set rest

/-- FaceInsertCache::snapshot (mutation/face.rs lines 208-282): perimeter keys
must be unique (the collected set has full size), every perimeter vertex must
exist, and the candidate interior arcs must pass face_insert_check; the cache
then captures the perimeter and the vertices' connectivity. -/
def faceInsertSnapshot (m : Mesh) (perimeter : List VertexKey) :
    Except GraphError FaceInsertCache :=
  if perimeter.dedup.length ≠ perimeter.length then .error .topologyMalformed
  else if (perimeter.filter (fun k => (kvGet m.vertices.entries k).isSome)).length ≠
      perimeter.length then
    .error .topologyNotFound
  else
    match face_insert_check m perimeter
        (cyclicPairs ((cyclicPairs perimeter).map (fun k => boundArc m k))) with
    | .error e => .error e
    | .ok _ =>
      .ok ⟨perimeter,
           perimeter.map (fun v => (v, incoming_arc_keys m v)),
           perimeter.map (fun v => (v, outgoing_arc_keys m v))⟩

/-- Collect the interior arcs of a perimeter, get-or-inserting each edge
(insert_with, mutation/face.rs lines 477-488). -/
def collect_interior_arcs (m : Mesh) (g : Nat) :
    List (VertexKey × VertexKey) → Mesh × Except GraphError (List ArcKey)
  | [] => (m, .ok [])
  | (a, b) :: rest =>
    match get_or_insert_edge_with m a b g with
    | (m1, .error e) => (m1, .error e)
    | (m1, .ok (_, ab, _)) =>
      match collect_interior_arcs m1 g rest with
      | (m2, .error e) => (m2, .error e)
      | (m2, .ok arcs) => (m2, .ok (ab :: arcs))

/-- FaceMutation::connect_face_interior (mutation/face.rs lines 53-59): link
each cyclically consecutive pair of interior arcs and stamp the face. -/
def connect_face_interior_loop (m : Mesh) (abc : FaceKey) :
    List (ArcKey × ArcKey) → Mesh × Except GraphError Unit
  | [] => (m, .ok ())
  | (ab, bc) :: rest =>
    match connect_neighboring_arcs m ab bc with
    | (m1, .error e) => (m1, .error e)
    | (m1, .ok _) =>
      match connect_arc_to_face m1 ab abc with
      | (m2, .error e) => (m2, .error e)
      | (m2, .ok _) => connect_face_interior_loop m2 abc rest

def connect_face_interior (m : Mesh) (arcs : List ArcKey) (abc : FaceKey) :
    Mesh × Except GraphError Unit :=
  connect_face_interior_loop m abc (cyclicPairs arcs)

/-- The boundary-arc search in connect_face_exterior: bind each candidate key
and find the first bound arc with no face. -/
def find_boundary (m : Mesh) (ks : List ArcKey) : Option ArcKey :=
  ((ks.filterMap (fun k => boundArc m k)).find? (fun e => e.2.face.isNone)).map (fun e => e.1)

/-- ArcView::into_reachable_previous_arc then into_reachable_opposite_arc:
previous link bound in storage, then its opposite bound in storage. -/
def reachable_previous_opposite (m : Mesh) (ab : ArcKey) : Option ArcKey :=
  ((kvGet m.arcs ab).bind (fun p => p.previous)).bind (fun xa =>
    ((kvGet m.arcs xa).map (fun _ => xa)).bind (fun xa =>
      (kvGet m.arcs xa.opposite).map (fun _ => xa.opposite)))

/-- ArcView::into_reachable_next_arc then into_reachable_opposite_arc. -/
def reachable_next_opposite (m : Mesh) (ab : ArcKey) : Option ArcKey :=
  ((kvGet m.arcs ab).bind (fun p => p.next)).bind (fun bx =>
    ((kvGet m.arcs bx).map (fun _ => bx)).bind (fun bx =>
      (kvGet m.arcs bx.opposite).map (fun _ => bx.opposite)))

/-- FaceMutation::connect_face_exterior (mutation/face.rs lines 68-124): for
each interior arc AB, when its opposite BA exists and is a boundary arc, find
the boundary successor and predecessor of BA among the snapshot connectivity
(falling back to the face's prior linkage), and relink BA between them.  A
missing opposite is a malformed-topology error. -/
def connect_face_exterior_loop (incoming outgoing : List (VertexKey × List ArcKey)) :
    Mesh → List ArcKey → Mesh × Except GraphError Unit
  | m, [] => (m, .ok ())
  | m, ab :: rest =>
    let a := ab.1
    let b := ab.2
    let ba := ab.opposite
    match kvGet m.arcs ba with
    | none => (m, .error .topologyMalformed)
    | some bap =>
      let neighbors :=
        if bap.face.isNone then
          let ax :=
            match find_boundary m ((kvGet outgoing a).getD []) with
            | some ax => some ax
            | none => reachable_previous_opposite m ab
          let xb :=
            match find_boundary m ((kvGet incoming b).getD []) with
            | some xb => some xb
            | none => reachable_next_opposite m ab
          match ax, xb with
          | some ax, some xb => some (ax, xb)
          | _, _ => none
        else none
      match neighbors with
      | none => connect_face_exterior_loop incoming outgoing m rest
      | some (ax, xb) =>
        match connect_neighboring_arcs m ba ax with
        | (m1, .error e) => (m1, .error e)
        | (m1, .ok _) =>
          match connect_neighboring_arcs m1 xb ba with
          | (m2, .error e) => (m2, .error e)
          | (m2, .ok _) => connect_face_exterior_loop incoming outgoing m2 rest

/-- face::insert_with (mutation/face.rs lines 459-499): get-or-insert the
perimeter edges, insert the face over the first interior arc, connect the
interior ring, then reconcile the exterior boundary.  An empty interior arc
list would be an index panic in the source (arcs[0]); it is unreachable from
the snapshot-producing call sites and modelled as a malformed-topology error. -/
def face_insert_with (m : Mesh) (cache : FaceInsertCache) (gface : Nat) (garc : Nat) :
    Mesh × Except GraphError FaceKey :=
  match collect_interior_arcs m garc (cyclicPairs cache.perimeter) with
  | (m1, .error e) => (m1, .error e)
  | (m1, .ok arcs) =>
    match arcs with
    | [] => (m1, .error .topologyMalformed)
    | a0 :: _ =>
      let (fs, abc) := m1.faces.insert ⟨gface, a0⟩
      let m2 : Mesh := { m1 with faces := fs }
      match connect_face_interior m2 arcs abc with
      | (m3, .error e) => (m3, .error e)
      | (m3, .ok _) =>
        match connect_face_exterior_loop cache.incoming cache.outgoing m3 arcs with
        | (m4, .error e) => (m4, .error e)
        | (m4, .ok _) => (m4, .ok abc)

/-- FaceRemoveCache (mutation/face.rs lines 284-287): the face key and its
interior arcs. -/
structure FaceRemoveCache where
  abc : FaceKey
  arcs : List ArcKey
  deriving DecidableEq

/-- FaceRemoveCache::snapshot (mutation/face.rs lines 289-304): bind the face
and capture its interior arc keys. -/
def faceRemoveSnapshot (m : Mesh) (abc : FaceKey) : Except GraphError FaceRemoveCache :=
  match kvGet m.faces.entries abc with
  | none => .error .topologyNotFound
  | some fp => .ok ⟨abc, ringArcs m fp.arc⟩

/-- FaceMutation::disconnect_face_interior (mutation/face.rs lines 61-66). -/
def disconnect_face_interior (m : Mesh) : List ArcKey → Mesh × Except GraphError Unit
  | [] => (m, .ok ())
  | ab :: rest =>
    match disconnect_arc_from_face m ab with
    | (m1, .error e) => (m1, .error e)
    | (m1, .ok _) => disconnect_face_interior m1 rest

/-- face::remove (mutation/face.rs lines 504-520): disconnect the interior
arcs' face pointers, then delete the face payload. -/
def face_remove (m : Mesh) (cache : FaceRemoveCache) :
    Mesh × Except GraphError FacePayload :=
  match disconnect_face_interior m cache.arcs with
  | (m1, .error e) => (m1, .error e)
  | (m1, .ok _) =>
    match kvGet m1.faces.entries cache.abc with
    | none => (m1, .error .topologyNotFound)
    | some fp =>
      ({ m1 with faces := ⟨m1.faces.gen, kvRemove m1.faces.entries cache.abc⟩ }, .ok fp)

/-- FaceSplitCache (mutation/face.rs lines 306-310): the removal cache plus the
left and right perimeters of the bisection. -/
structure FaceSplitCache where
  cache : FaceRemoveCache
  left : List VertexKey
  right : List VertexKey
  deriving DecidableEq

/-- FaceSplitCache::snapshot (mutation/face.rs lines 312-363): bind the face,
require ring distance of the chosen vertices to exceed 1, then compute the two
perimeters by walking consecutive windows of the cyclic vertex order from
source to destination and back.  The source iterates an infinite cycle(); a
tripled perimeter provides every window the dropWhile/takeWhile pass can
consume when both endpoints lie on the ring, which the distance check has
already established. -/
def faceSplitSnapshot (m : Mesh) (abc : FaceKey) (source destination : VertexKey) :
    Except GraphError FaceSplitCache :=
  match kvGet m.faces.entries abc with
  | none => .error .topologyNotFound
  | some fp =>
    match faceDistance m abc (.byKey source) (.byKey destination) with
    | .error e => .error e
    | .ok dist =>
      if dist ≤ 1 then .error .topologyMalformed
      else
        let perimeter := ringVertices m fp.arc
        let tripled := perimeter ++ perimeter ++ perimeter
        let windows := tripled.zip tripled.tail
        let left :=
          ((windows.dropWhile (fun p => decide (¬ p.2 = source))).takeWhile
            (fun p => decide (¬ p.1 = destination))).map (fun p => p.2)
        let right :=
          ((windows.dropWhile (fun p => decide (¬ p.2 = destination))).takeWhile
            (fun p => decide (¬ p.1 = source))).map (fun p => p.2)
        match faceRemoveSnapshot m abc with
        | .error e => .error e
        | .ok rc => .ok ⟨rc, left, right⟩

/-- face::split (mutation/face.rs lines 522-535): remove the original face,
snapshot and insert the two bisection faces, and return the arc from the
source vertex to the destination vertex.  An empty perimeter would be an index
panic (left[0] / right[0]) in the source, unreachable from the snapshot, and
is modelled as a malformed-topology error. -/
def face_split (m : Mesh) (c : FaceSplitCache) : Mesh × Except GraphError ArcKey :=
  match face_remove m c.cache with
  | (m1, .error e) => (m1, .error e)
  | (m1, .ok _) =>
    match c.left, c.right with
    | l0 :: _, r0 :: _ =>
      let ab : ArcKey := (l0, r0)
      match faceInsertSnapshot m1 c.left with
      | .error e => (m1, .error e)
      | .ok leftCache =>
        match faceInsertSnapshot m1 c.right with
        | .error e => (m1, .error e)
        | .ok rightCache =>
          match face_insert_with m1 leftCache 0 0 with
          | (m2, .error e) => (m2, .error e)
          | (m2, .ok _) =>
            match face_insert_with m2 rightCache 0 0 with
            | (m3, .error e) => (m3, .error e)
            | (m3, .ok _) => (m3, .ok ab)
    | _, _ => (m1, .error .topologyMalformed)

/-- The transactional wrapper (mutation/mod.rs): Replace::replace swaps the
live container for the replacement and holds the extracted pre-mutation value;
Mutate::commit_with runs the closure on the in-flight mutation, then either
Replace::commit (drain_and_commit stores the committed mutant back into the
container, lines 74-79) or, on a closure error, Replace::abort
(drain_and_abort, lines 81-84, drops the in-flight mutation; the container is
not written again and keeps the replacement).  The result pairs the final
content of the live container with the propagated output. -/
def replaceCommitWith {M T : Type} (live replacement : M)
    (f : M → M × Except GraphError T) (commit : M → Except GraphError M) :
    M × Except GraphError T :=
  let container := replacement
  let (mutant, output) := f live
  match output with
  | .ok value =>
    match commit mutant with
    | .ok committed => (committed, .ok value)
    | .error e => (container, .error e)
  | .error e => (container, .error e)

/-- The commit of the staged mutation: VertexMutation::commit and
EdgeMutation::commit re-fuse the storages and always succeed, and
FaceMutation::commit maps over the inner commit; no consistency check is
performed at commit time in these sources. -/
def meshCommit (m : Mesh) : Except GraphError Mesh := .ok m

/-- Selector::key_or_else as used by FaceView::split: a key selector is used
as-is, an index selector is resolved through vertices().nth(index). -/
def key_or_else_vertex (m : Mesh) (start : ArcKey) : Selector → Except GraphError VertexKey
  | .byKey k => .ok k
  | .byIndex i =>
    match (ringVertices m start).get? i with
    | some k => .ok k
    | none => .error .topologyNotFound

/-- FaceView::split (face.rs lines 524-545): resolve both selectors, snapshot
the split cache, then run face::split through the transactional wrapper with a
default replacement. -/
def faceViewSplit (m : Mesh) (abc : FaceKey) (source destination : Selector) :
    Mesh × Except GraphError ArcKey :=
  match kvGet m.faces.entries abc with
  | none => (m, .error .topologyNotFound)
  | some fp =>
    match key_or_else_vertex m fp.arc source with
    | .error e => (m, .error e)
    | .ok src =>
      match key_or_else_vertex m fp.arc destination with
      | .error e => (m, .error e)
      | .ok dst =>
        match faceSplitSnapshot m abc src dst with
        | .error e => (m, .error e)
        | .ok cache =>
          replaceCommitWith m defaultMesh (fun mm => face_split mm cache) meshCommit

/-- ArcView::into_face: the face owning an arc, if any. -/
def intoFaceOf (m : Mesh) (ab : ArcKey) : Option FaceKey :=
  (kvGet m.arcs ab).bind (fun p => p.face)

/-- FaceView::triangulate (face.rs lines 651-661): while the face's arity
exceeds 3, split it between ring indices 0 and 2 and continue on the face of
the returned arc.  The source loop carries no bound; fuel counts loop
iterations and none models a split failure, which the source escalates as an
expect_consistent panic. -/
def triangulateF (m : Mesh) (abc : FaceKey) : Nat → Option (Mesh × FaceKey)
  | 0 => if 3 < faceArity m abc then none else some (m, abc)
  | fuel + 1 =>
    if 3 < faceArity m abc then
      match faceViewSplit m abc (.byIndex 0) (.byIndex 2) with
      | (m1, .ok ab) =>
        match intoFaceOf m1 ab with
        | some abc1 => triangulateF m1 abc1 fuel
        | none => none
      | (_, .error _) => none
    else some (m, abc)

/-- Modelled from the spec: VertexView::neighboring_vertices (the vertex view
file is not under src); per the data model these are the destinations of the
vertex's outgoing arcs. -/
def neighboring_vertex_keys (m : Mesh) (v : VertexKey) : List VertexKey :=
  (outgoing_arc_keys m v).map (fun k => k.2)

/-- Path (path.rs lines 29-37): the deque of arc keys; the head of the list is
the front of the deque. -/
structure PathS where
  keys : List ArcKey
  deriving DecidableEq

/-- Path::is_closed (path.rs lines 285-288): the back endpoint equals the
front endpoint.  An empty key deque would panic in endpoints(); paths are
never empty, so the false returned here is unreachable. -/
def path_is_closed (p : PathS) : Bool :=
  match p.keys.getLast?, p.keys.head? with
  | some back, some front => decide (back.1 = front.2)
  | _, _ => false

/-- The destination resolution of Path::push_front: a keyed selector searches
the front vertex's outgoing arcs for the destination, an indexed selector
picks the nth neighboring vertex. -/
def resolve_front (m : Mesh) (b : VertexKey) : Selector → Except GraphError ArcKey
  | .byKey key =>
    match (outgoing_arc_keys m b).find? (fun k => decide (k.2 = key)) with
    | some bx => .ok bx
    | none => .error .topologyMalformed
  | .byIndex index =>
    match (neighboring_vertex_keys m b).get? index with
    | some x => .ok (b, x)
    | none => .error .topologyNotFound

/-- The source resolution of Path::push_back, symmetric to resolve_front on
incoming arcs. -/
def resolve_back (m : Mesh) (a : VertexKey) : Selector → Except GraphError ArcKey
  | .byKey key =>
    match (incoming_arc_keys m a).find? (fun k => decide (k.1 = key)) with
    | some xa => .ok xa
    | none => .error .topologyMalformed
  | .byIndex index =>
    match (neighboring_vertex_keys m a).get? index with
    | some x => .ok (x, a)
    | none => .error .topologyNotFound

/-- Path::push_front (path.rs lines 149-184): require the path open, resolve
the destination selector against the front vertex, refuse an intersecting
vertex, then push the arc onto the front. -/
def path_push_front (m : Mesh) (p : PathS) (sel : Selector) :
    PathS × Except GraphError ArcKey :=
  if path_is_closed p then (p, .error .topologyMalformed)
  else
    match p.keys.head? with
    | none => (p, .error .topologyMalformed)
    | some frontArc =>
      match resolve_front m frontArc.2 sel with
      | .error e => (p, .error e)
      | .ok bx =>
        if p.keys.any (fun k => decide (k.2 = bx.2)) then (p, .error .topologyMalformed)
        else (⟨bx :: p.keys⟩, .ok bx)

/-- Path::push_back (path.rs lines 85-120), symmetric to push_front on the
back vertex and incoming arcs. -/
def path_push_back (m : Mesh) (p : PathS) (sel : Selector) :
    PathS × Except GraphError ArcKey :=
  if path_is_closed p then (p, .error .topologyMalformed)
  else
    match p.keys.getLast? with
    | none => (p, .error .topologyMalformed)
    | some backArc =>
      match resolve_back m backArc.1 sel with
      | .error e => (p, .error e)
      | .ok xa =>
        if p.keys.any (fun k => decide (k.1 = xa.1)) then (p, .error .topologyMalformed)
        else (⟨p.keys ++ [xa]⟩, .ok xa)

/-- Path::pop_back (path.rs lines 123-131): empty paths are forbidden, so a
path holding one arc refuses to pop. -/
def path_pop_back (p : PathS) : PathS × Option ArcKey :=
  if 1 < p.keys.length then (⟨p.keys.dropLast⟩, p.keys.getLast?)
  else (p, none)

/-- Path::pop_front (path.rs lines 187-195). -/
def path_pop_front (p : PathS) : PathS × Option ArcKey :=
  if 1 < p.keys.length then (⟨p.keys.tail⟩, p.keys.head?)
  else (p, none)

/-- The push_front loop of Path::bind over the remaining vertex keys. -/
def path_push_front_fold (m : Mesh) (p : PathS) :
    List VertexKey → Except GraphError PathS
  | [] => .ok p
  | k :: rest =>
    match path_push_front m p (.byKey k) with
    | (_, .error e) => .error e
    | (p1, .ok _) => path_push_front_fold m p1 rest

/-- Path::bind (path.rs lines 48-67): fewer than two vertex keys is a
malformed-topology error raised before any storage lookup; the first arc must
exist; the remaining keys are pushed onto the front one by one. -/
def pathBind (m : Mesh) (ks : List VertexKey) : Except GraphError PathS :=
  match ks with
  | [] => .error .topologyMalformed
  | [_] => .error .topologyMalformed
  | a :: b :: rest =>
    let ab : ArcKey := (a, b)
    match kvGet m.arcs ab with
    | none => .error .topologyNotFound
    | some _ => path_push_front_fold m ⟨[ab]⟩ rest

/-- A push or pop operation on a path, used to state the nonemptiness
invariant over arbitrary operation sequences. -/
inductive PathOp where
  | pushBack : Selector → PathOp
  | pushFront : Selector → PathOp
  | popBack : PathOp
  | popFront : PathOp

/-- Run a sequence of path operations, keeping the path state (results and
errors are discarded; a failing operation leaves the path unchanged). -/
def runPathOps (m : Mesh) (p : PathS) : List PathOp → PathS
  | [] => p
  | op :: ops =>
    let p1 :=
      match op with
      | .pushBack sel => (path_push_back m p sel).1
      | .pushFront sel => (path_push_front m p sel).1
      | .popBack => (path_pop_back p).1
      | .popFront => (path_pop_front p).1
    runPathOps m p1 ops

/-- A concrete mesh: the unit-square face of the spec's scenario, with
vertices 0..3 in ring order, the interior ring of four arcs owned by face 0,
the exterior boundary ring of the four opposite arcs, and one edge per arc
pair.  Vertex geometry 0,1,2,3 stands for the positions (0,0),(1,0),(1,1),
(0,1). -/
def squareMesh : Mesh :=
  { vertices :=
      ⟨4, [(0, ⟨0, some (0, 1)⟩), (1, ⟨1, some (1, 2)⟩),
           (2, ⟨2, some (2, 3)⟩), (3, ⟨3, some (3, 0)⟩)]⟩
    arcs :=
      [((0, 1), ⟨0, some (1, 2), some (3, 0), some 0, some 0⟩),
       ((1, 2), ⟨0, some (2, 3), some (0, 1), some 1, some 0⟩),
       ((2, 3), ⟨0, some (3, 0), some (1, 2), some 2, some 0⟩),
       ((3, 0), ⟨0, some (0, 1), some (2, 3), some 3, some 0⟩),
       ((1, 0), ⟨0, some (0, 3), some (2, 1), some 0, none⟩),
       ((2, 1), ⟨0, some (1, 0), some (3, 2), some 1, none⟩),
       ((3, 2), ⟨0, some (2, 1), some (0, 3), some 2, none⟩),
       ((0, 3), ⟨0, some (3, 2), some (1, 0), some 3, none⟩)]
    edges :=
      ⟨4, [(0, ⟨0, (0, 1)⟩), (1, ⟨0, (1, 2)⟩), (2, ⟨0, (2, 3)⟩), (3, ⟨0, (3, 0)⟩)]⟩
    faces := ⟨1, [(0, ⟨0, (0, 1)⟩)]⟩ }

/-- The result of splitting the square face between ring indices 0 and 2. -/
def squareSplit : Mesh × Except GraphError ArcKey :=
  faceViewSplit squareMesh 0 (.byIndex 0) (.byIndex 2)

/-
Theorems.
-/

section DistanceLemmas

/-- Spec-side selector failure: a keyed selector whose key is not a vertex of
the ring, or an index selector at least the arity. -/
def selectorMisses (vs : List VertexKey) : Selector → Prop
  | .byKey k => k ∉ vs
  | .byIndex i => vs.length ≤ i

/-- Spec-side selector resolution: a keyed selector resolves to the 0-based
ring index of its first occurrence, an index selector to itself when in
range. -/
def resolvesTo (vs : List VertexKey) : Selector → Nat → Prop
  | .byKey k, i => vs.get? i = some k ∧ k ∉ vs.take i
  | .byIndex j, i => j = i ∧ i < vs.length

theorem find_index_from_some_iff (key : VertexKey) (vs : List VertexKey) :
    ∀ s i, find_index_from key s vs = some i ↔
      ∃ j, i = s + j ∧ vs.get? j = some key ∧ key ∉ vs.take j := by
  induction vs with
  | nil =>
    intro s i
    simp [find_index_from]
  | cons a rest ih =>
    intro s i
    unfold find_index_from
    by_cases ha : a = key
    · rw [if_pos ha]
      constructor
      · intro h
        refine ⟨0, ?_, ?_, ?_⟩
        · cases h; simp
        · simpa using ha
        · simp
      · rintro ⟨j, hij, hget, htake⟩
        cases j with
        | zero => simp [hij]
        | succ j' =>
          exfalso
          apply htake
          rw [List.take_succ_cons, ← ha]
          exact List.mem_cons_self a (rest.take j')
    · rw [if_neg ha]
      constructor
      · intro h
        rcases (ih (s + 1) i).mp h with ⟨j', hij, hget, htake⟩
        refine ⟨j' + 1, by omega, by simpa using hget, ?_⟩
        rw [List.take_succ_cons]
        intro hmem
        rcases List.mem_cons.mp hmem with h1 | h1
        · exact ha h1.symm
        · exact htake h1
      · rintro ⟨j, hij, hget, htake⟩
        cases j with
        | zero =>
          exfalso
          exact ha (by simpa using hget)
        | succ j' =>
          apply (ih (s + 1) i).mpr
          refine ⟨j', by omega, by simpa using hget, ?_⟩
          intro hmem
          apply htake
          rw [List.take_succ_cons]
          exact List.mem_cons_of_mem a hmem

theorem find_index_from_none_iff (key : VertexKey) (vs : List VertexKey) :
    ∀ s, find_index_from key s vs = none ↔ key ∉ vs := by
  induction vs with
  | nil => intro s; simp [find_index_from]
  | cons a rest ih =>
    intro s
    unfold find_index_from
    by_cases ha : a = key
    · rw [if_pos ha]
      simp [ha]
    · rw [if_neg ha]
      rw [ih (s + 1)]
      constructor
      · intro h hmem
        rcases List.mem_cons.mp hmem with h1 | h1
        · exact ha h1.symm
        · exact h h1
      · intro h hmem
        exact h (List.mem_cons_of_mem a hmem)

theorem index_of_selector_error_iff (vs : List VertexKey) (s : Selector) :
    index_of_selector vs vs.length s = .error .topologyNotFound ↔ selectorMisses vs s := by
  cases s with
  | byKey k =>
    cases h : find_index_from k 0 vs with
    | none =>
      have hres : index_of_selector vs vs.length (.byKey k) = .error .topologyNotFound := by
        simp [index_of_selector, h]
      rw [hres]
      exact ⟨fun _ => (find_index_from_none_iff k vs 0).mp h, fun _ => rfl⟩
    | some i =>
      have hres : index_of_selector vs vs.length (.byKey k) = .ok i := by
        simp [index_of_selector, h]
      rw [hres]
      constructor
      · intro hc
        simp at hc
      · intro hmem
        exfalso
        rcases (find_index_from_some_iff k vs 0 i).mp h with ⟨j, _, hget, _⟩
        exact hmem (List.get?_mem hget)
  | byIndex i =>
    by_cases hi : vs.length ≤ i
    · have hres : index_of_selector vs vs.length (.byIndex i) = .error .topologyNotFound := by
        simp [index_of_selector, hi]
      rw [hres]
      exact ⟨fun _ => hi, fun _ => rfl⟩
    · have hres : index_of_selector vs vs.length (.byIndex i) = .ok i := by
        simp [index_of_selector, hi]
      rw [hres]
      constructor
      · intro hc
        simp at hc
      · intro hle
        exact absurd hle hi

theorem index_of_selector_dichotomy (vs : List VertexKey) (s : Selector) :
    (∃ i, index_of_selector vs vs.length s = .ok i) ∨
      index_of_selector vs vs.length s = .error .topologyNotFound := by
  cases s with
  | byKey k =>
    unfold index_of_selector
    cases h : find_index_from k 0 vs with
    | none => right; simp [h]
    | some i => left; exact ⟨i, by simp [h]⟩
  | byIndex i =>
    unfold index_of_selector
    by_cases hi : vs.length ≤ i
    · right; simp [hi]
    · left; exact ⟨i, by simp [hi]⟩

theorem index_of_selector_resolves (vs : List VertexKey) (s : Selector) (i : Nat)
    (h : resolvesTo vs s i) : index_of_selector vs vs.length s = .ok i := by
  cases s with
  | byKey k =>
    unfold index_of_selector
    have : find_index_from k 0 vs = some i :=
      (find_index_from_some_iff k vs 0 i).mpr ⟨i, by omega, h.1, h.2⟩
    simp [this]
  | byIndex j =>
    unfold index_of_selector
    rcases h with ⟨hj, hlt⟩
    subst hj
    simp [Nat.not_le_of_lt hlt, Nat.not_le.mpr hlt]

end DistanceLemmas

/-- C2: for a ring's vertex order (of arity its length) and any two selectors,
distance fails with TopologyNotFound exactly when a keyed selector is not a
vertex of the ring or an index selector is at least the arity; when both
selectors resolve to indices i and j it returns min(|i - j|, arity - |i - j|);
on the unit-square face, distance between ring indices (0,2), (0,3) and (0,0)
is 2, 1 and 0 respectively. -/
theorem ring_distance_spec :
    (∀ (vs : List VertexKey) (s d : Selector),
      (distanceOn vs s d = .error .topologyNotFound ↔
        selectorMisses vs s ∨ selectorMisses vs d)) ∧
    (∀ (vs : List VertexKey) (s d : Selector) (i j : Nat),
      resolvesTo vs s i → resolvesTo vs d j →
      distanceOn vs s d =
        .ok (min (((i : Int) - (j : Int)).natAbs)
                 (vs.length - ((i : Int) - (j : Int)).natAbs))) ∧
    faceDistance squareMesh 0 (.byIndex 0) (.byIndex 2) = .ok 2 ∧
    faceDistance squareMesh 0 (.byIndex 0) (.byIndex 3) = .ok 1 ∧
    faceDistance squareMesh 0 (.byIndex 0) (.byIndex 0) = .ok 0 := by
  refine ⟨?_, ?_, by decide, by decide, by decide⟩
  · intro vs s d
    unfold distanceOn
    rcases index_of_selector_dichotomy vs s with ⟨i, hs⟩ | hs
    · rcases index_of_selector_dichotomy vs d with ⟨j, hd⟩ | hd
      · rw [hs, hd]
        constructor
        · intro hc
          simp at hc
        · intro hc
          exfalso
          rcases hc with hc | hc
          · rw [← index_of_selector_error_iff] at hc
            rw [hs] at hc
            simp at hc
          · rw [← index_of_selector_error_iff] at hc
            rw [hd] at hc
            simp at hc
      · rw [hs, hd]
        constructor
        · intro _
          right
          exact (index_of_selector_error_iff vs d).mp hd
        · intro _
          rfl
    · rw [hs]
      constructor
      · intro _
        left
        exact (index_of_selector_error_iff vs s).mp hs
      · intro _
        rfl
  · intro vs s d i j hi hj
    unfold distanceOn
    rw [index_of_selector_resolves vs s i hi, index_of_selector_resolves vs d j hj]

/-- C2 witness: the general parts applied to the square ring order. -/
theorem ring_distance_spec_witness :
    (distanceOn [1, 2, 3, 0] (.byKey 7) (.byIndex 0) = .error .topologyNotFound ↔
      selectorMisses [1, 2, 3, 0] (.byKey 7) ∨ selectorMisses [1, 2, 3, 0] (.byIndex 0)) ∧
    (resolvesTo [1, 2, 3, 0] (.byKey 3) 2 ∧ resolvesTo [1, 2, 3, 0] (.byIndex 0) 0) ∧
    distanceOn [1, 2, 3, 0] (.byKey 3) (.byIndex 0) =
      .ok (min (((2 : Int) - (0 : Int)).natAbs) (4 - ((2 : Int) - (0 : Int)).natAbs)) := by
  refine ⟨ring_distance_spec.1 [1, 2, 3, 0] (.byKey 7) (.byIndex 0), ⟨?_, ?_⟩, ?_⟩
  · exact ⟨by decide, by decide⟩
  · exact ⟨rfl, by decide⟩
  · exact ring_distance_spec.2.1 [1, 2, 3, 0] (.byKey 3) (.byIndex 0) 2 0
      ⟨by decide, by decide⟩ ⟨rfl, by decide⟩

/-- C6: the unit-square face has arity 4; splitting it between ring indices 0
and 2 succeeds, returns the arc between the two chosen vertices, bounded by a
face on each side, and yields 4 vertices, 10 arcs and exactly 2 faces of arity
3 each. -/
theorem square_split_scenario :
    faceArity squareMesh 0 = 4 ∧
    squareSplit.2 = .ok ((ringVertices squareMesh (0, 1)).getD 0 0,
                         (ringVertices squareMesh (0, 1)).getD 2 0) ∧
    squareSplit.1.vertices.len = 4 ∧
    squareSplit.1.arcs.length = 10 ∧
    squareSplit.1.faces.len = 2 ∧
    squareSplit.1.faces.entries.map (fun e => faceArity squareSplit.1 e.1) = [3, 3] ∧
    (intoFaceOf squareSplit.1 (1, 3)).isSome ∧
    (intoFaceOf squareSplit.1 (3, 1)).isSome ∧
    intoFaceOf squareSplit.1 (1, 3) ≠ intoFaceOf squareSplit.1 (3, 1) := by
  decide

/-- Sequences without inserts return no keys. -/
theorem runStorageOps_no_insert_keys {α : Type} (ops : List (StorageOp α))
    (h : countInserts ops = 0) : ∀ s : KStorage α, (runStorageOps s ops).2 = [] := by
  induction ops with
  | nil =>
    intro s
    rfl
  | cons op ops ih =>
    intro s
    cases op with
    | insert x =>
      exact absurd h (by simp [countInserts])
    | remove kk =>
      have h0 : countInserts ops = 0 := h
      simp only [runStorageOps, applyStorageOp, KStorage.remove, Option.toList,
        List.nil_append]
      exact ih h0 _

/-- C9 helper: while the generator cannot wrap (its starting value plus the
number of inserts stays at most 2^64), the keys returned by inserts along any
operation sequence are strictly increasing and bounded below by the starting
generator value. -/
theorem runStorageOps_spec {α : Type} (ops : List (StorageOp α)) :
    ∀ s : KStorage α, s.gen + countInserts ops ≤ 2 ^ 64 →
      ((runStorageOps s ops).2).Pairwise (· < ·) ∧
        ∀ k ∈ (runStorageOps s ops).2, s.gen ≤ k := by
  induction ops with
  | nil =>
    intro s _
    simp [runStorageOps]
  | cons op ops ih =>
    intro s hb
    cases op with
    | insert x =>
      have hcnt : countInserts (StorageOp.insert x :: ops) = countInserts ops + 1 := rfl
      rw [hcnt] at hb
      by_cases hw : s.gen + 1 < 2 ^ 64
      · have hmod : (s.gen + 1) % 2 ^ 64 = s.gen + 1 := Nat.mod_eq_of_lt hw
        have hgen : (⟨(s.gen + 1) % 2 ^ 64, kvInsert s.entries s.gen x⟩ : KStorage α).gen =
            s.gen + 1 := hmod
        have h := ih ⟨(s.gen + 1) % 2 ^ 64, kvInsert s.entries s.gen x⟩ (by
          rw [hgen]
          omega)
        rw [hgen] at h
        simp only [runStorageOps, applyStorageOp, KStorage.insert, Option.toList,
          List.cons_append, List.nil_append]
        constructor
        · apply List.Pairwise.cons
          · intro k hk
            have hlow := h.2 k hk
            omega
          · exact h.1
        · intro k hk
          rcases List.mem_cons.mp hk with h1 | h1
          · omega
          · have hlow := h.2 k h1
            omega
      · have h0 : countInserts ops = 0 := by omega
        have hnil := runStorageOps_no_insert_keys ops h0
          (⟨(s.gen + 1) % 2 ^ 64, kvInsert s.entries s.gen x⟩ : KStorage α)
        simp only [runStorageOps, applyStorageOp, KStorage.insert, Option.toList,
          List.cons_append, List.nil_append]
        rw [hnil]
        constructor
        · simp
        · intro k hk
          rcases List.mem_cons.mp hk with h1 | h1
          · omega
          · cases h1
    | remove kk =>
      have hcnt : countInserts (StorageOp.remove kk :: ops) = countInserts ops := rfl
      rw [hcnt] at hb
      have h := ih ⟨s.gen, kvRemove s.entries kk⟩ hb
      simp only [runStorageOps, applyStorageOp, KStorage.remove, Option.toList,
        List.nil_append]
      exact h

/-- With the wrapping generator, n successive inserts from a storage whose
generator value is a valid u64 return the values gen, gen + 1, ... reduced
mod 2^64. -/
theorem runStorageOps_replicate_insert {α : Type} (x : α) :
    ∀ (n : Nat) (s : KStorage α), s.gen < 2 ^ 64 →
      (runStorageOps s (List.replicate n (StorageOp.insert x))).2 =
        (List.range n).map (fun i => (s.gen + i) % 2 ^ 64) := by
  intro n
  induction n with
  | zero =>
    intro s _
    rfl
  | succ n ih =>
    intro s hs
    have hrep : List.replicate (n + 1) (StorageOp.insert x) =
        StorageOp.insert x :: List.replicate n (StorageOp.insert x) :=
      List.replicate_succ _ _
    rw [hrep]
    have hred : (runStorageOps s
          (StorageOp.insert x :: List.replicate n (StorageOp.insert x))).2 =
        s.gen :: (runStorageOps
          (⟨(s.gen + 1) % 2 ^ 64, kvInsert s.entries s.gen x⟩ : KStorage α)
          (List.replicate n (StorageOp.insert x))).2 := by
      simp only [runStorageOps, applyStorageOp, KStorage.insert, Option.toList,
        List.cons_append, List.nil_append]
    rw [hred]
    rw [ih ⟨(s.gen + 1) % 2 ^ 64, kvInsert s.entries s.gen x⟩
      (Nat.mod_lt _ (by positivity))]
    rw [List.range_succ_eq_map, List.map_cons, List.map_map]
    congr 1
    · exact (Nat.mod_eq_of_lt (by omega)).symm
    · apply List.map_congr_left
      intro i _
      show ((s.gen + 1) % 2 ^ 64 + i) % 2 ^ 64 = (s.gen + Nat.succ i) % 2 ^ 64
      rw [Nat.mod_add_mod]
      congr 1
      omega

/-- C9 counterexample: the source generator advances a u64 (Key(**self + 1),
storage.rs lines 30-34), whose addition wraps at 2^64 in release builds, so
key freshness does not hold for every operation sequence: after the generator
wraps, insert returns a key equal to one returned before. The sequence of
2^64 + 1 inserts from a fresh storage returns the key 0 twice. -/
theorem storage_insert_reuses_keys :
    ¬ ∀ ops : List (StorageOp Nat),
        ((runStorageOps KStorage.new ops).2).Pairwise (· ≠ ·) := by
  intro h
  have hp := h (List.replicate (2 ^ 64 + 1) (StorageOp.insert 0))
  rw [runStorageOps_replicate_insert 0 (2 ^ 64 + 1) KStorage.new
    (by show (0 : Nat) < 2 ^ 64; positivity)] at hp
  rw [List.pairwise_iff_getElem] at hp
  have hlen : ((List.range (2 ^ 64 + 1)).map
      (fun i => ((KStorage.new : KStorage Nat).gen + i) % 2 ^ 64)).length =
      2 ^ 64 + 1 := by
    simp
  have hcontra := hp 0 (2 ^ 64) (by rw [hlen]; omega) (by rw [hlen]; omega)
    (by positivity)
  apply hcontra
  rw [List.getElem_map, List.getElem_map, List.getElem_range, List.getElem_range]
  show ((KStorage.new : KStorage Nat).gen + 0) % 2 ^ 64 =
    ((KStorage.new : KStorage Nat).gen + 2 ^ 64) % 2 ^ 64
  show ((0 : Nat) + 0) % 2 ^ 64 = ((0 : Nat) + 2 ^ 64) % 2 ^ 64
  simp

/-- C9 (amended): Storage::insert returns the current generator value and
advances the generator by wrapping u64 addition; along any sequence of
inserts and removes from a fresh storage that performs at most 2^64 inserts
in total (so the generator cannot wrap), the keys returned by inserts are
pairwise distinct (strictly increasing) - within that horizon removed keys
are never reused. -/
theorem storage_insert_fresh_keys :
    (∀ (s : KStorage Nat) (x : Nat),
      (s.insert x).2 = s.gen ∧ ((s.insert x).1).gen = (s.gen + 1) % 2 ^ 64) ∧
    (∀ ops : List (StorageOp Nat), countInserts ops ≤ 2 ^ 64 →
      ((runStorageOps KStorage.new ops).2).Pairwise (· < ·)) := by
  constructor
  · intro s x
    exact ⟨rfl, rfl⟩
  · intro ops hcnt
    refine (runStorageOps_spec ops KStorage.new ?_).1
    show (0 : Nat) + countInserts ops ≤ 2 ^ 64
    omega

/-- C9 witness: a concrete insert/remove/insert sequence performs at most
2^64 inserts, and the keys its inserts return are strictly increasing. -/
theorem storage_insert_fresh_keys_witness :
    countInserts [StorageOp.insert 7, StorageOp.remove 0,
      StorageOp.insert (8 : Nat)] ≤ 2 ^ 64 ∧
    ((runStorageOps KStorage.new [StorageOp.insert 7, StorageOp.remove 0,
      StorageOp.insert (8 : Nat)]).2).Pairwise (· < ·) :=
  ⟨by decide, storage_insert_fresh_keys.2 _ (by decide)⟩

/-- A commit closure that touches nothing and fails, as a concrete aborted
mutation for exercising the transactional wrapper. -/
def failingClosure (m : Mesh) : Mesh × Except GraphError Unit :=
  (m, .error .topologyNotFound)

/-- C1 counterexample: a commit closure that fails leaves the live container
holding the default placeholder (the empty mesh), not the pre-mutation
storage, refuting the claim that the original storage is restored. -/
theorem replace_commit_with_claim_false :
    (replaceCommitWith squareMesh defaultMesh failingClosure meshCommit).1 ≠ squareMesh ∧
    (replaceCommitWith squareMesh defaultMesh failingClosure meshCommit).1 = defaultMesh := by
  decide

/-- C1 (amended): after commit_with on the Replace wrapper, a closure error or
a final-commit error leaves the live container holding the replacement passed
to Replace::replace (the default placeholder) and surfaces the error - the
pre-mutation storage is dropped, not restored - while a successful commit
installs the committed storage. -/
theorem replace_commit_with_placeholder :
    ∀ {M T : Type} (live replacement : M) (f : M → M × Except GraphError T)
      (commit : M → Except GraphError M),
      (∀ m1 e, f live = (m1, .error e) →
        replaceCommitWith live replacement f commit = (replacement, .error e)) ∧
      (∀ m1 t e, f live = (m1, .ok t) → commit m1 = .error e →
        replaceCommitWith live replacement f commit = (replacement, .error e)) ∧
      (∀ m1 t m2, f live = (m1, .ok t) → commit m1 = .ok m2 →
        replaceCommitWith live replacement f commit = (m2, .ok t)) := by
  intro M T live replacement f commit
  refine ⟨?_, ?_, ?_⟩
  · intro m1 e hf
    unfold replaceCommitWith
    rw [hf]
  · intro m1 t e hf hc
    unfold replaceCommitWith
    rw [hf]
    simp only
    rw [hc]
  · intro m1 t m2 hf hc
    unfold replaceCommitWith
    rw [hf]
    simp only
    rw [hc]

section CirculatorLemmas

/-- Spec-side chain linkage: each arc's next link (through the lookup g) leads
to the following list element, and the last element's link equals stop (some
first key for a closed ring, none for a broken chain). -/
def chainLinked (g : ArcKey → Option ArcPayload) : List ArcKey → Option ArcKey → Prop
  | [], _ => True
  | x :: rest, stop =>
    (g x).bind (fun p => p.next) = (match rest with | [] => stop | y :: _ => some y) ∧
      chainLinked g rest stop

/-- The current-arc state at the start of a residual chain. -/
def chainStart (l : List ArcKey) (stop : Option ArcKey) : Option ArcKey :=
  match l with
  | [] => stop
  | x :: _ => some x

theorem circSteps_chain (g : ArcKey → Option ArcPayload) (first : ArcKey)
    (stop : Option ArcKey) (hstop : stop = none ∨ stop = some first) :
    ∀ l : List ArcKey, chainLinked g l stop → (∀ x ∈ l, x ≠ first) →
      ∀ fuel, l.length ≤ fuel →
        circSteps g fuel ⟨chainStart l stop, ⟨some first⟩⟩ = l := by
  intro l
  induction l with
  | nil =>
    intro _ _ fuel _
    rcases hstop with h | h
    · subst h
      cases fuel with
      | zero => rfl
      | succ n => simp [circSteps, circStep, chainStart]
    · subst h
      cases fuel with
      | zero => rfl
      | succ n => simp [circSteps, circStep, chainStart, TraceFirst.insert]
  | cons x rest ih =>
    intro hchain hne fuel hfuel
    cases fuel with
    | zero => simp at hfuel
    | succ n =>
      have hx : x ≠ first := hne x (List.mem_cons_self x rest)
      have hstep :
          circSteps g (n + 1) ⟨chainStart (x :: rest) stop, ⟨some first⟩⟩ =
            x :: circSteps g n ⟨(g x).bind (fun p => p.next), ⟨some first⟩⟩ := by
        simp [circSteps, circStep, chainStart, TraceFirst.insert, hx]
      rw [hstep]
      have hnext : (g x).bind (fun p => p.next) = chainStart rest stop := by
        have := hchain.1
        cases rest with
        | nil => exact this
        | cons y r => exact this
      rw [hnext]
      have hlen : rest.length ≤ n := by
        simp only [List.length_cons] at hfuel
        omega
      rw [ih hchain.2 (fun y hy => hne y (List.mem_cons_of_mem x hy)) n hlen]

end CirculatorLemmas

/-- C3: each ArcCirculator::next call stops when there is no current key or the
current key equals the first-visited key, and otherwise emits the current key
and advances to that arc's next link (none when the arc or its link is
absent); consequently on a well-formed ring of n distinct arcs it emits
exactly those n arcs, once each, at any fuel of at least n (so it then
stops), and on a duplicate-free chain whose next links reach none it likewise
emits exactly the chain and stops. -/
theorem arc_circulator_spec :
    (∀ (g : ArcKey → Option ArcPayload) (s : CircState),
      s.arc = none → circStep g s = none) ∧
    (∀ (g : ArcKey → Option ArcPayload) (s : CircState) (k : ArcKey),
      s.arc = some k → s.trace.first = some k → circStep g s = none) ∧
    (∀ (g : ArcKey → Option ArcPayload) (s : CircState) (k : ArcKey),
      s.arc = some k → s.trace.first ≠ some k →
      ∃ t, circStep g s = some (k, ⟨(g k).bind (fun p => p.next), t⟩)) ∧
    (∀ (g : ArcKey → Option ArcPayload) (k0 : ArcKey) (rest : List ArcKey),
      (k0 :: rest).Nodup → chainLinked g (k0 :: rest) (some k0) →
      ∀ fuel, (k0 :: rest).length ≤ fuel →
        circSteps g fuel (circInit k0) = k0 :: rest) ∧
    (∀ (g : ArcKey → Option ArcPayload) (k0 : ArcKey) (rest : List ArcKey),
      (k0 :: rest).Nodup → chainLinked g (k0 :: rest) none →
      ∀ fuel, (k0 :: rest).length ≤ fuel →
        circSteps g fuel (circInit k0) = k0 :: rest) := by
  have hfirst :
      ∀ (g : ArcKey → Option ArcPayload) (k0 : ArcKey) (rest : List ArcKey)
        (stop : Option ArcKey), stop = none ∨ stop = some k0 →
        (k0 :: rest).Nodup → chainLinked g (k0 :: rest) stop →
        ∀ fuel, (k0 :: rest).length ≤ fuel →
          circSteps g fuel (circInit k0) = k0 :: rest := by
    intro g k0 rest stop hstop hnodup hchain fuel hfuel
    cases fuel with
    | zero => simp at hfuel
    | succ n =>
      have hstep :
          circSteps g (n + 1) (circInit k0) =
            k0 :: circSteps g n ⟨(g k0).bind (fun p => p.next), ⟨some k0⟩⟩ := by
        simp [circSteps, circStep, circInit, TraceFirst.insert]
      rw [hstep]
      have hnext : (g k0).bind (fun p => p.next) = chainStart rest stop := by
        have := hchain.1
        cases rest with
        | nil => exact this
        | cons y r => exact this
      rw [hnext]
      have hne : ∀ x ∈ rest, x ≠ k0 := by
        intro x hx hxk
        rw [List.nodup_cons] at hnodup
        exact hnodup.1 (hxk ▸ hx)
      have hlen : rest.length ≤ n := by
        simp only [List.length_cons] at hfuel
        omega
      rw [circSteps_chain g k0 stop hstop rest hchain.2 hne n hlen]
  refine ⟨?_, ?_, ?_, ?_, ?_⟩
  · intro g s h
    simp [circStep, h]
  · intro g s k hk hf
    simp [circStep, hk, TraceFirst.insert, hf]
  · intro g s k hk hf
    cases ht : s.trace.first with
    | none => exact ⟨⟨some k⟩, by simp [circStep, hk, TraceFirst.insert, ht]⟩
    | some f =>
      have hkf : ¬ k = f := fun h => hf (by rw [ht, h])
      exact ⟨s.trace, by simp [circStep, hk, TraceFirst.insert, ht, hkf]⟩
  · intro g k0 rest hnodup hchain fuel hfuel
    exact hfirst g k0 rest (some k0) (Or.inr rfl) hnodup hchain fuel hfuel
  · intro g k0 rest hnodup hchain fuel hfuel
    exact hfirst g k0 rest none (Or.inl rfl) hnodup hchain fuel hfuel

/-- A two-arc chain whose next links reach none, for exercising the circulator
on a broken boundary walk. -/
def brokenChainLookup : ArcKey → Option ArcPayload :=
  fun k => kvGet [((0, 1), ⟨0, some (1, 2), none, none, none⟩),
                  ((1, 2), ⟨0, none, none, none, none⟩)] k

/-- C3 witness: each part of the circulator specification at concrete inputs -
the square face's interior ring and a broken two-arc chain. -/
theorem arc_circulator_spec_witness :
    circStep (fun _ => none) ⟨none, ⟨none⟩⟩ = none ∧
    circStep (fun _ => none) ⟨some (0, 1), ⟨some (0, 1)⟩⟩ = none ∧
    (∃ t, circStep brokenChainLookup ⟨some (0, 1), ⟨none⟩⟩ =
      some ((0, 1), ⟨(brokenChainLookup (0, 1)).bind (fun p => p.next), t⟩)) ∧
    circSteps (fun k => kvGet squareMesh.arcs k) 9 (circInit (0, 1)) =
      [(0, 1), (1, 2), (2, 3), (3, 0)] ∧
    circSteps brokenChainLookup 5 (circInit (0, 1)) = [(0, 1), (1, 2)] := by
  refine ⟨?_, ?_, ?_, ?_, ?_⟩
  · exact arc_circulator_spec.1 (fun _ => none) ⟨none, ⟨none⟩⟩ rfl
  · exact arc_circulator_spec.2.1 (fun _ => none) ⟨some (0, 1), ⟨some (0, 1)⟩⟩ (0, 1) rfl rfl
  · exact arc_circulator_spec.2.2.1 brokenChainLookup ⟨some (0, 1), ⟨none⟩⟩ (0, 1) rfl
      (by decide)
  · exact arc_circulator_spec.2.2.2.1 (fun k => kvGet squareMesh.arcs k) (0, 1)
      [(1, 2), (2, 3), (3, 0)] (by decide) ⟨by decide, by decide, by decide, by decide, trivial⟩
      9 (by decide)
  · exact arc_circulator_spec.2.2.2.2 brokenChainLookup (0, 1) [(1, 2)] (by decide)
      ⟨by decide, by decide, trivial⟩ 5 (by decide)

/-- C1 witness: the amended behavior at a concrete failing closure. -/
theorem replace_commit_with_placeholder_witness :
    replaceCommitWith squareMesh defaultMesh failingClosure meshCommit =
      (defaultMesh, .error .topologyNotFound) :=
  (replace_commit_with_placeholder squareMesh defaultMesh failingClosure meshCommit).1
    squareMesh .topologyNotFound rfl

def arcEdgeField (m : Mesh) (k : ArcKey) : Option EdgeKey :=
  match kvGet m.arcs k with
  | some p => p.edge
  | none => none

theorem connect_outgoing_arc_frame (m : Mesh) (a : VertexKey) (ab : ArcKey) :
    ((connect_outgoing_arc m a ab).1).arcs = m.arcs ∧
    ((connect_outgoing_arc m a ab).1).edges = m.edges ∧
    ((connect_outgoing_arc m a ab).1).faces = m.faces := by
  unfold connect_outgoing_arc
  cases kvGet m.vertices.entries a <;> simp

theorem goia_present (m : Mesh) (a b : VertexKey) (g : Nat) (p : ArcPayload)
    (h : kvGet m.arcs (a, b) = some p) :
    get_or_insert_arc_with m a b g = (m, (p.edge, (a, b))) := by
  simp [get_or_insert_arc_with, h]

theorem goia_absent (m : Mesh) (a b : VertexKey) (g : Nat)
    (h : kvGet m.arcs (a, b) = none) :
    get_or_insert_arc_with m a b g =
      ((connect_outgoing_arc { m with arcs := kvInsert m.arcs (a, b) (ArcPayload.new g) } a (a, b)).1,
       (none, (a, b))) := by
  simp [get_or_insert_arc_with, h]

theorem goie_both_present (m : Mesh) (a b : VertexKey) (g : Nat) (e : EdgeKey)
    (p q : ArcPayload)
    (hp : kvGet m.arcs (a, b) = some p) (hpe : p.edge = some e)
    (hq : kvGet m.arcs (b, a) = some q) (hqe : q.edge = some e) :
    get_or_insert_edge_with m a b g = (m, .ok (e, (a, b), (b, a))) := by
  unfold get_or_insert_edge_with
  simp only [goia_present m a b g p hp, goia_present m b a g q hq]
  rw [hpe, hqe]
  simp



theorem connect_arc_to_edge_eq (m : Mesh) (ab : ArcKey) (e : EdgeKey) (p : ArcPayload)
    (h : kvGet m.arcs ab = some p) :
    connect_arc_to_edge m ab e =
      ({ m with arcs := kvInsert m.arcs ab ⟨p.geometry, p.next, p.previous, some e, p.face⟩ },
       .ok ()) := by
  simp [connect_arc_to_edge, with_arc_mut, h]

theorem goie_fresh (m : Mesh) (a b : VertexKey) (g : Nat)
    (hab : a ≠ b)
    (h1 : kvGet m.arcs (a, b) = none) (h2 : kvGet m.arcs (b, a) = none)
    (hfresh : kvGet m.edges.entries m.edges.gen = none) :
    (get_or_insert_edge_with m a b g).2 = .ok (m.edges.gen, (a, b), (b, a)) ∧
    kvGet (get_or_insert_edge_with m a b g).1.arcs (a, b) =
      some ⟨g, none, none, some m.edges.gen, none⟩ ∧
    kvGet (get_or_insert_edge_with m a b g).1.arcs (b, a) =
      some ⟨g, none, none, some m.edges.gen, none⟩ ∧
    kvGet (get_or_insert_edge_with m a b g).1.edges.entries m.edges.gen = some ⟨0, (a, b)⟩ ∧
    (get_or_insert_edge_with m a b g).1.edges.len = m.edges.len + 1 ∧
    (get_or_insert_edge_with m a b g).1.arcs.length = m.arcs.length + 2 := by
  have hba' : ((b, a) : ArcKey) ≠ (a, b) := by
    intro hcon
    exact hab (congrArg Prod.snd hcon)
  have hab' : ((a, b) : ArcKey) ≠ (b, a) := by
    intro hcon
    exact hab (congrArg Prod.fst hcon)
  -- first arc insertion
  have hgoia1 := goia_absent m a b g h1
  set M1 : Mesh := { m with arcs := kvInsert m.arcs (a, b) (ArcPayload.new g) } with hM1
  set M2 : Mesh := (connect_outgoing_arc M1 a (a, b)).1 with hM2
  obtain ⟨hM2arcs, hM2edges, hM2faces⟩ := connect_outgoing_arc_frame M1 a (a, b)
  have hM2get : kvGet M2.arcs (b, a) = none := by
    rw [hM2arcs]
    show kvGet (kvInsert m.arcs (a, b) (ArcPayload.new g)) (b, a) = none
    rw [kvGet_insert_ne m.arcs (a, b) (b, a) (ArcPayload.new g) hba']
    exact h2
  -- second arc insertion
  have hgoia2 := goia_absent M2 b a g hM2get
  set M3 : Mesh := { M2 with arcs := kvInsert M2.arcs (b, a) (ArcPayload.new g) } with hM3
  set M4 : Mesh := (connect_outgoing_arc M3 b (b, a)).1 with hM4
  obtain ⟨hM4arcs, hM4edges, hM4faces⟩ := connect_outgoing_arc_frame M3 b (b, a)
  have hM4edges' : M4.edges = m.edges := by
    rw [hM4edges]
    show M2.edges = m.edges
    rw [hM2edges]
  have hM4ab : kvGet M4.arcs (a, b) = some (ArcPayload.new g) := by
    rw [hM4arcs]
    show kvGet (kvInsert M2.arcs (b, a) (ArcPayload.new g)) (a, b) = some (ArcPayload.new g)
    rw [kvGet_insert_ne M2.arcs (b, a) (a, b) (ArcPayload.new g) hab']
    rw [hM2arcs]
    show kvGet (kvInsert m.arcs (a, b) (ArcPayload.new g)) (a, b) = some (ArcPayload.new g)
    exact kvGet_insert_self m.arcs (a, b) (ArcPayload.new g)
  have hM4ba : kvGet M4.arcs (b, a) = some (ArcPayload.new g) := by
    rw [hM4arcs]
    exact kvGet_insert_self M2.arcs (b, a) (ArcPayload.new g)
  -- the edge insertion and the two edge connections
  set k := m.edges.gen with hk
  set M5 : Mesh := { M4 with
    edges := ⟨(m.edges.gen + 1) % 2 ^ 64, kvInsert m.edges.entries k ⟨0, (a, b)⟩⟩ }
    with hM5
  have hM5ab : kvGet M5.arcs (a, b) = some (ArcPayload.new g) := hM4ab
  have hc1 := connect_arc_to_edge_eq M5 (a, b) k (ArcPayload.new g) hM5ab
  set M6 : Mesh :=
    { M5 with arcs := kvInsert M5.arcs (a, b) ⟨g, none, none, some k, none⟩ } with hM6
  have hM6ba : kvGet M6.arcs (b, a) = some (ArcPayload.new g) := by
    show kvGet (kvInsert M5.arcs (a, b) ⟨g, none, none, some k, none⟩) (b, a) =
      some (ArcPayload.new g)
    rw [kvGet_insert_ne M5.arcs (a, b) (b, a) _ hba']
    exact hM4ba
  have hc2 := connect_arc_to_edge_eq M6 (b, a) k (ArcPayload.new g) hM6ba
  set M7 : Mesh :=
    { M6 with arcs := kvInsert M6.arcs (b, a) ⟨g, none, none, some k, none⟩ } with hM7
  have hcomp : get_or_insert_edge_with m a b g = (M7, .ok (k, (a, b), (b, a))) := by
    unfold get_or_insert_edge_with
    simp only [hgoia1, hgoia2]
    show (match (none : Option EdgeKey), (none : Option EdgeKey) with
      | some e1, some e2 =>
        if e1 = e2 then (M4, Except.ok (e1, ((a, b) : ArcKey), ((b, a) : ArcKey)))
        else (M4, Except.error GraphError.topologyMalformed)
      | none, none =>
        match M4.edges.insert ⟨0, (a, b)⟩ with
        | (es, k') =>
          let m3 : Mesh := { M4 with edges := es }
          match connect_arc_to_edge m3 (a, b) k' with
          | (m4, Except.error e) => (m4, Except.error e)
          | (m4, Except.ok _) =>
            match connect_arc_to_edge m4 (b, a) k' with
            | (m5, Except.error e) => (m5, Except.error e)
            | (m5, Except.ok _) => (m5, Except.ok (k', (a, b), (b, a)))
      | _, _ => (M4, Except.error GraphError.topologyMalformed)) = (M7, .ok (k, (a, b), (b, a)))
    simp only
    rw [show M4.edges.insert ⟨0, (a, b)⟩ = (⟨(m.edges.gen + 1) % 2 ^ 64, kvInsert m.edges.entries k ⟨0, (a, b)⟩⟩, k) by
      rw [show M4.edges.insert ⟨0, (a, b)⟩ = (⟨(M4.edges.gen + 1) % 2 ^ 64, kvInsert M4.edges.entries M4.edges.gen ⟨0, (a, b)⟩⟩, M4.edges.gen) from rfl, hM4edges', hk]]
    simp only
    rw [hc1]
    show (match connect_arc_to_edge M6 (b, a) k with
      | (m4, Except.error e) => (m4, Except.error e)
      | (m5, Except.ok _) => (m5, Except.ok (k, ((a, b) : ArcKey), ((b, a) : ArcKey)))) =
      (M7, Except.ok (k, (a, b), (b, a)))
    rw [hc2]
    rfl
  rw [hcomp]
  refine ⟨rfl, ?_, ?_, ?_, ?_, ?_⟩
  · show kvGet M7.arcs (a, b) = some ⟨g, none, none, some k, none⟩
    show kvGet (kvInsert M6.arcs (b, a) ⟨g, none, none, some k, none⟩) (a, b) =
      some ⟨g, none, none, some k, none⟩
    rw [kvGet_insert_ne M6.arcs (b, a) (a, b) _ hab']
    exact kvGet_insert_self M5.arcs (a, b) _
  · show kvGet M7.arcs (b, a) = some ⟨g, none, none, some k, none⟩
    exact kvGet_insert_self M6.arcs (b, a) _
  · show kvGet M7.edges.entries k = some ⟨0, (a, b)⟩
    show kvGet (kvInsert m.edges.entries k ⟨0, (a, b)⟩) k = some ⟨0, (a, b)⟩
    exact kvGet_insert_self m.edges.entries k _
  · show M7.edges.len = m.edges.len + 1
    show (kvInsert m.edges.entries k ⟨0, (a, b)⟩).length = m.edges.entries.length + 1
    exact kvInsert_length_absent m.edges.entries k _ hfresh
  · show M7.arcs.length = m.arcs.length + 2
    show (kvInsert M6.arcs (b, a) ⟨g, none, none, some k, none⟩).length = m.arcs.length + 2
    rw [kvInsert_length_present M6.arcs (b, a) _ (by rw [hM6ba]; rfl)]
    show (kvInsert M5.arcs (a, b) ⟨g, none, none, some k, none⟩).length = m.arcs.length + 2
    rw [kvInsert_length_present M5.arcs (a, b) _ (by rw [hM5ab]; rfl)]
    show M4.arcs.length = m.arcs.length + 2
    rw [hM4arcs]
    show (kvInsert M2.arcs (b, a) (ArcPayload.new g)).length = m.arcs.length + 2
    rw [kvInsert_length_absent M2.arcs (b, a) _ hM2get, hM2arcs]
    show (kvInsert m.arcs (a, b) (ArcPayload.new g)).length + 1 = m.arcs.length + 2
    rw [kvInsert_length_absent m.arcs (a, b) _ h1]



def edgeMismatch (m : Mesh) (a b : VertexKey) : Prop :=
  ¬ ((arcEdgeField m (a, b) = none ∧ arcEdgeField m (b, a) = none) ∨
     ∃ e, arcEdgeField m (a, b) = some e ∧ arcEdgeField m (b, a) = some e)

theorem connect_arc_to_edge_ok (mA : Mesh) (ab : ArcKey) (k : EdgeKey)
    (h : (kvGet mA.arcs ab).isSome) :
    ∃ mB, connect_arc_to_edge mA ab k = (mB, .ok ()) ∧
      ∀ c : ArcKey, (kvGet mA.arcs c).isSome → (kvGet mB.arcs c).isSome := by
  cases hp : kvGet mA.arcs ab with
  | none => rw [hp] at h; simp at h
  | some p =>
    refine ⟨_, connect_arc_to_edge_eq mA ab k p hp, ?_⟩
    intro c hc
    by_cases hcab : c = ab
    · subst hcab
      show (kvGet (kvInsert mA.arcs c _) c).isSome
      rw [kvGet_insert_self]
      rfl
    · show (kvGet (kvInsert mA.arcs ab _) c).isSome
      rw [kvGet_insert_ne mA.arcs ab c _ hcab]
      exact hc

theorem goie_okm_shape (m : Mesh) (a b : VertexKey) (g : Nat) (X1 X2 : Mesh) (e : EdgeKey)
    (h1 : get_or_insert_arc_with m a b g = (X1, (some e, (a, b))))
    (h2 : get_or_insert_arc_with X1 b a g = (X2, (some e, (b, a)))) :
    get_or_insert_edge_with m a b g = (X2, .ok (e, (a, b), (b, a))) := by
  unfold get_or_insert_edge_with
  simp only [h1, h2]
  simp

theorem goie_err_shape (m : Mesh) (a b : VertexKey) (g : Nat) (X1 X2 : Mesh)
    (r1 r2 : Option EdgeKey)
    (h1 : get_or_insert_arc_with m a b g = (X1, (r1, (a, b))))
    (h2 : get_or_insert_arc_with X1 b a g = (X2, (r2, (b, a))))
    (hmm : match r1, r2 with
           | some e1, some e2 => e1 ≠ e2
           | none, none => False
           | _, _ => True) :
    (get_or_insert_edge_with m a b g).2 = .error .topologyMalformed := by
  unfold get_or_insert_edge_with
  simp only [h1, h2]
  match r1, r2 with
  | some e1, some e2 =>
    have hne : e1 ≠ e2 := hmm
    simp [hne]
  | some e1, none => simp
  | none, some e2 => simp
  | none, none => exact absurd hmm (by simp)

theorem goie_ok_shape (m : Mesh) (a b : VertexKey) (g : Nat) (X1 X2 : Mesh)
    (h1 : get_or_insert_arc_with m a b g = (X1, (none, (a, b))))
    (h2 : get_or_insert_arc_with X1 b a g = (X2, (none, (b, a))))
    (hab : (kvGet X2.arcs (a, b)).isSome)
    (hba : (kvGet X2.arcs (b, a)).isSome) :
    ∃ m' r, get_or_insert_edge_with m a b g = (m', .ok r) := by
  unfold get_or_insert_edge_with
  simp only [h1, h2]
  have hab5 : (kvGet ({ X2 with
      edges := ⟨(X2.edges.gen + 1) % 2 ^ 64,
        kvInsert X2.edges.entries X2.edges.gen ⟨0, (a, b)⟩⟩ } : Mesh).arcs
      (a, b)).isSome := hab
  obtain ⟨mB, hcon1, hpres⟩ := connect_arc_to_edge_ok _ (a, b) X2.edges.gen hab5
  obtain ⟨mC, hcon2, _⟩ := connect_arc_to_edge_ok mB (b, a) X2.edges.gen (hpres (b, a) hba)
  refine ⟨mC, (X2.edges.gen, (a, b), (b, a)), ?_⟩
  show (match KStorage.insert X2.edges ⟨0, (a, b)⟩ with
    | (es, k') =>
      let m3 : Mesh := { X2 with edges := es }
      match connect_arc_to_edge m3 (a, b) k' with
      | (m4, Except.error e) => (m4, Except.error e)
      | (m4, Except.ok _) =>
        match connect_arc_to_edge m4 (b, a) k' with
        | (m5, Except.error e) => (m5, Except.error e)
        | (m5, Except.ok _) => (m5, Except.ok (k', (a, b), (b, a)))) =
    (mC, Except.ok (X2.edges.gen, (a, b), (b, a)))
  show (let m3 : Mesh := { X2 with
      edges := ⟨(X2.edges.gen + 1) % 2 ^ 64,
        kvInsert X2.edges.entries X2.edges.gen ⟨0, (a, b)⟩⟩ }
    match connect_arc_to_edge m3 (a, b) X2.edges.gen with
    | (m4, Except.error e) => (m4, Except.error e)
    | (m4, Except.ok _) =>
      match connect_arc_to_edge m4 (b, a) X2.edges.gen with
      | (m5, Except.error e) => (m5, Except.error e)
      | (m5, Except.ok _) => (m5, Except.ok (X2.edges.gen, (a, b), (b, a)))) =
    (mC, Except.ok (X2.edges.gen, (a, b), (b, a)))
  simp only
  rw [hcon1]
  simp only
  rw [hcon2]



theorem goia_absent_arcs (m : Mesh) (a b : VertexKey) (g : Nat)
    (h : kvGet m.arcs (a, b) = none) :
    ∃ X1, get_or_insert_arc_with m a b g = (X1, (none, (a, b))) ∧
      X1.arcs = kvInsert m.arcs (a, b) (ArcPayload.new g) ∧ X1.edges = m.edges := by
  refine ⟨_, goia_absent m a b g h, ?_, ?_⟩
  · exact (connect_outgoing_arc_frame _ a (a, b)).1
  · exact (connect_outgoing_arc_frame _ a (a, b)).2.1

theorem goie_cases (m : Mesh) (a b : VertexKey) (g : Nat) :
    ((get_or_insert_edge_with m a b g).2 = .error .topologyMalformed ∧ edgeMismatch m a b) ∨
    ((∃ m' r, get_or_insert_edge_with m a b g = (m', .ok r)) ∧ ¬ edgeMismatch m a b) := by
  cases hE1 : kvGet m.arcs (a, b) with
  | some p =>
    have h1 := goia_present m a b g p hE1
    cases hE2 : kvGet m.arcs (b, a) with
    | some q =>
      have h2 := goia_present m b a g q hE2
      cases hpe : p.edge with
      | some e1 =>
        cases hqe : q.edge with
        | some e2 =>
          by_cases he : e1 = e2
          · subst he
            right
            rw [hpe] at h1
            rw [hqe] at h2
            refine ⟨⟨m, (e1, (a, b), (b, a)), goie_okm_shape m a b g m m e1 h1 h2⟩, ?_⟩
            exact not_not_intro (Or.inr ⟨e1, by simp [arcEdgeField, hE1, hpe],
              by simp [arcEdgeField, hE2, hqe]⟩)
          · left
            rw [hpe] at h1
            rw [hqe] at h2
            refine ⟨goie_err_shape m a b g m m (some e1) (some e2) h1 h2 he, ?_⟩
            intro hdis
            rcases hdis with ⟨hn1, _⟩ | ⟨e, he1, he2⟩
            · simp [arcEdgeField, hE1, hpe] at hn1
            · simp [arcEdgeField, hE1, hpe] at he1
              simp [arcEdgeField, hE2, hqe] at he2
              exact he (he1.trans he2.symm)
        | none =>
          left
          rw [hpe] at h1
          rw [hqe] at h2
          refine ⟨goie_err_shape m a b g m m (some e1) none h1 h2 trivial, ?_⟩
          intro hdis
          rcases hdis with ⟨hn1, _⟩ | ⟨e, _, he2⟩
          · simp [arcEdgeField, hE1, hpe] at hn1
          · simp [arcEdgeField, hE2, hqe] at he2
      | none =>
        cases hqe : q.edge with
        | some e2 =>
          left
          rw [hpe] at h1
          rw [hqe] at h2
          refine ⟨goie_err_shape m a b g m m none (some e2) h1 h2 trivial, ?_⟩
          intro hdis
          rcases hdis with ⟨_, hn2⟩ | ⟨e, he1, _⟩
          · simp [arcEdgeField, hE2, hqe] at hn2
          · simp [arcEdgeField, hE1, hpe] at he1
        | none =>
          right
          rw [hpe] at h1
          rw [hqe] at h2
          refine ⟨goie_ok_shape m a b g m m h1 h2 (by rw [hE1]; rfl) (by rw [hE2]; rfl), ?_⟩
          exact not_not_intro (Or.inl ⟨by simp [arcEdgeField, hE1, hpe],
            by simp [arcEdgeField, hE2, hqe]⟩)
    | none =>
      obtain ⟨X2, h2, hX2arcs, _⟩ := goia_absent_arcs m b a g hE2
      cases hpe : p.edge with
      | some e1 =>
        left
        rw [hpe] at h1
        refine ⟨goie_err_shape m a b g m X2 (some e1) none h1 h2 trivial, ?_⟩
        intro hdis
        rcases hdis with ⟨hn1, _⟩ | ⟨e, he1, he2⟩
        · simp [arcEdgeField, hE1, hpe] at hn1
        · simp [arcEdgeField, hE2] at he2
      | none =>
        right
        rw [hpe] at h1
        have hax : (kvGet X2.arcs (a, b)).isSome := by
          rw [hX2arcs]
          by_cases hk : ((a, b) : ArcKey) = (b, a)
          · rw [hk, kvGet_insert_self]
            rfl
          · rw [kvGet_insert_ne m.arcs (b, a) (a, b) _ hk, hE1]
            rfl
        have hbx : (kvGet X2.arcs (b, a)).isSome := by
          rw [hX2arcs, kvGet_insert_self]
          rfl
        refine ⟨goie_ok_shape m a b g m X2 h1 h2 hax hbx, ?_⟩
        exact not_not_intro (Or.inl ⟨by simp [arcEdgeField, hE1, hpe],
          by simp [arcEdgeField, hE2]⟩)
  | none =>
    obtain ⟨X1, h1, hX1arcs, hX1edges⟩ := goia_absent_arcs m a b g hE1
    by_cases hk : ((b, a) : ArcKey) = (a, b)
    · have hget : kvGet X1.arcs (b, a) = some (ArcPayload.new g) := by
        rw [hX1arcs, hk]
        exact kvGet_insert_self m.arcs (a, b) (ArcPayload.new g)
      have h2 := goia_present X1 b a g (ArcPayload.new g) hget
      right
      have hnew : (ArcPayload.new g).edge = none := rfl
      rw [hnew] at h2
      have hax : (kvGet X1.arcs (a, b)).isSome := by
        rw [hX1arcs, kvGet_insert_self]
        rfl
      have hbx : (kvGet X1.arcs (b, a)).isSome := by
        rw [hget]
        rfl
      refine ⟨goie_ok_shape m a b g X1 X1 h1 h2 hax hbx, ?_⟩
      refine not_not_intro (Or.inl ⟨by simp [arcEdgeField, hE1], ?_⟩)
      have : kvGet m.arcs (b, a) = none := by rw [hk]; exact hE1
      simp [arcEdgeField, this]
    · have hba : kvGet X1.arcs (b, a) = kvGet m.arcs (b, a) := by
        rw [hX1arcs]
        exact kvGet_insert_ne m.arcs (a, b) (b, a) _ hk
      cases hE2 : kvGet m.arcs (b, a) with
      | some q =>
        have h2 := goia_present X1 b a g q (by rw [hba, hE2])
        cases hqe : q.edge with
        | some e2 =>
          left
          rw [hqe] at h2
          refine ⟨goie_err_shape m a b g X1 X1 none (some e2) h1 h2 trivial, ?_⟩
          intro hdis
          rcases hdis with ⟨_, hn2⟩ | ⟨e, he1, _⟩
          · simp [arcEdgeField, hE2, hqe] at hn2
          · simp [arcEdgeField, hE1] at he1
        | none =>
          right
          rw [hqe] at h2
          have hax : (kvGet X1.arcs (a, b)).isSome := by
            rw [hX1arcs, kvGet_insert_self]
            rfl
          have hbx : (kvGet X1.arcs (b, a)).isSome := by
            rw [hba, hE2]
            rfl
          refine ⟨goie_ok_shape m a b g X1 X1 h1 h2 hax hbx, ?_⟩
          exact not_not_intro (Or.inl ⟨by simp [arcEdgeField, hE1],
            by simp [arcEdgeField, hE2, hqe]⟩)
      | none =>
        obtain ⟨X2, h2, hX2arcs, _⟩ := goia_absent_arcs X1 b a g (by rw [hba]; exact hE2)
        right
        have hax : (kvGet X2.arcs (a, b)).isSome := by
          rw [hX2arcs]
          have hk' : ((a, b) : ArcKey) ≠ (b, a) := fun hcon => hk hcon.symm
          rw [kvGet_insert_ne X1.arcs (b, a) (a, b) _ hk', hX1arcs, kvGet_insert_self]
          rfl
        have hbx : (kvGet X2.arcs (b, a)).isSome := by
          rw [hX2arcs, kvGet_insert_self]
          rfl
        refine ⟨goie_ok_shape m a b g X1 X2 h1 h2 hax hbx, ?_⟩
        exact not_not_intro (Or.inl ⟨by simp [arcEdgeField, hE1],
          by simp [arcEdgeField, hE2]⟩)



/-- C5: get_or_insert_edge_with on (A,B) returns the existing edge and arc
pair unchanged when arc AB exists with an owning edge matched by BA; when
neither AB nor BA exists (A distinct from B, generator fresh) it creates both
arcs and exactly one new edge connected to both and returns them; and it
returns an error - always TopologyMalformed - exactly when the edge fields of
AB and BA in the pre-mutation mesh are mismatched (one owning an edge the
other does not match). -/
theorem get_or_insert_edge_spec :
    (∀ (m : Mesh) (a b : VertexKey) (g : Nat) (e : EdgeKey) (p q : ArcPayload),
      kvGet m.arcs (a, b) = some p → p.edge = some e →
      kvGet m.arcs (b, a) = some q → q.edge = some e →
      get_or_insert_edge_with m a b g = (m, .ok (e, (a, b), (b, a)))) ∧
    (∀ (m : Mesh) (a b : VertexKey) (g : Nat),
      a ≠ b → kvGet m.arcs (a, b) = none → kvGet m.arcs (b, a) = none →
      kvGet m.edges.entries m.edges.gen = none →
      (get_or_insert_edge_with m a b g).2 = .ok (m.edges.gen, (a, b), (b, a)) ∧
      kvGet (get_or_insert_edge_with m a b g).1.arcs (a, b) =
        some ⟨g, none, none, some m.edges.gen, none⟩ ∧
      kvGet (get_or_insert_edge_with m a b g).1.arcs (b, a) =
        some ⟨g, none, none, some m.edges.gen, none⟩ ∧
      kvGet (get_or_insert_edge_with m a b g).1.edges.entries m.edges.gen = some ⟨0, (a, b)⟩ ∧
      (get_or_insert_edge_with m a b g).1.edges.len = m.edges.len + 1 ∧
      (get_or_insert_edge_with m a b g).1.arcs.length = m.arcs.length + 2) ∧
    (∀ (m : Mesh) (a b : VertexKey) (g : Nat),
      (get_or_insert_edge_with m a b g).2 = .error .topologyMalformed ↔ edgeMismatch m a b) ∧
    (∀ (m : Mesh) (a b : VertexKey) (g : Nat) (e : GraphError),
      (get_or_insert_edge_with m a b g).2 = .error e → e = .topologyMalformed) := by
  refine ⟨?_, ?_, ?_, ?_⟩
  · intro m a b g e p q hp hpe hq hqe
    exact goie_both_present m a b g e p q hp hpe hq hqe
  · intro m a b g hab h1 h2 hfresh
    exact goie_fresh m a b g hab h1 h2 hfresh
  · intro m a b g
    rcases goie_cases m a b g with ⟨herr, hmm⟩ | ⟨⟨m', r, hok⟩, hnm⟩
    · exact ⟨fun _ => hmm, fun _ => herr⟩
    · constructor
      · intro hc
        rw [hok] at hc
        simp at hc
      · intro hc
        exact absurd hc hnm
  · intro m a b g e he
    rcases goie_cases m a b g with ⟨herr, _⟩ | ⟨⟨m', r, hok⟩, _⟩
    · rw [herr] at he
      exact (Except.error.inj he).symm
    · rw [hok] at he
      simp at he

/-- A mesh holding a lone arc pointing at an edge whose opposite is missing,
a malformed configuration for exercising the mismatch error. -/
def mismatchMesh : Mesh :=
  ⟨KStorage.new, [((5, 6), ⟨0, none, none, some 9, none⟩)], KStorage.new, KStorage.new⟩

/-- C5 witness: reuse on the square mesh's existing edge, fresh creation
across its diagonal, and the mismatch error on the malformed mesh. -/
theorem get_or_insert_edge_spec_witness :
    get_or_insert_edge_with squareMesh 0 1 0 = (squareMesh, .ok (0, (0, 1), (1, 0))) ∧
    (get_or_insert_edge_with squareMesh 0 2 7).2 =
      .ok (squareMesh.edges.gen, (0, 2), (2, 0)) ∧
    (get_or_insert_edge_with squareMesh 0 2 7).1.arcs.length = squareMesh.arcs.length + 2 ∧
    ((get_or_insert_edge_with mismatchMesh 5 6 0).2 = .error .topologyMalformed ↔
      edgeMismatch mismatchMesh 5 6) ∧
    GraphError.topologyMalformed = GraphError.topologyMalformed := by
  refine ⟨?_, ?_, ?_, ?_, ?_⟩
  · exact get_or_insert_edge_spec.1 squareMesh 0 1 0 0
      ⟨0, some (1, 2), some (3, 0), some 0, some 0⟩
      ⟨0, some (0, 3), some (2, 1), some 0, none⟩ (by decide) rfl (by decide) rfl
  · exact (get_or_insert_edge_spec.2.1 squareMesh 0 2 7 (by decide) (by decide) (by decide)
      (by decide)).1
  · exact (get_or_insert_edge_spec.2.1 squareMesh 0 2 7 (by decide) (by decide) (by decide)
      (by decide)).2.2.2.2.2
  · exact get_or_insert_edge_spec.2.2.1 mismatchMesh 5 6 0
  · exact get_or_insert_edge_spec.2.2.2 mismatchMesh 5 6 0 .topologyMalformed (by decide)

/-- FaceMutation::disconnect_face_interior succeeds on present arcs, touches
only their face fields, and leaves every other storage and field alone. -/
theorem disconnect_face_interior_spec (arcs : List ArcKey) :
    ∀ m : Mesh, (∀ ab ∈ arcs, (kvGet m.arcs ab).isSome) →
      ∃ m', disconnect_face_interior m arcs = (m', .ok ()) ∧
        m'.vertices = m.vertices ∧ m'.edges = m.edges ∧ m'.faces = m.faces ∧
        m'.arcs.length = m.arcs.length ∧
        ∀ k, kvGet m'.arcs k =
          (kvGet m.arcs k).map
            (fun p => if k ∈ arcs then ⟨p.geometry, p.next, p.previous, p.edge, none⟩ else p) := by
  induction arcs with
  | nil =>
    intro m _
    refine ⟨m, rfl, rfl, rfl, rfl, rfl, ?_⟩
    intro k
    simp
  | cons ab rest ih =>
    intro m hall
    have hab : (kvGet m.arcs ab).isSome := hall ab (List.mem_cons_self ab rest)
    cases hp : kvGet m.arcs ab with
    | none => rw [hp] at hab; simp at hab
    | some p =>
      set p' : ArcPayload := ⟨p.geometry, p.next, p.previous, p.edge, none⟩ with hp'
      set m1 : Mesh := { m with arcs := kvInsert m.arcs ab p' } with hm1
      have hstep : disconnect_arc_from_face m ab = (m1, .ok p.face) := by
        simp [disconnect_arc_from_face, with_arc_mut, hp]
      have hrest : ∀ c ∈ rest, (kvGet m1.arcs c).isSome := by
        intro c hc
        by_cases hcab : c = ab
        · subst hcab
          show (kvGet (kvInsert m.arcs c p') c).isSome
          rw [kvGet_insert_self]
          rfl
        · show (kvGet (kvInsert m.arcs ab p') c).isSome
          rw [kvGet_insert_ne m.arcs ab c p' hcab]
          exact hall c (List.mem_cons_of_mem ab hc)
      obtain ⟨m2, hrun, hv, he, hf, hlen, hget⟩ := ih m1 hrest
      refine ⟨m2, ?_, hv, he, hf, ?_, ?_⟩
      · show disconnect_face_interior m (ab :: rest) = (m2, .ok ())
        unfold disconnect_face_interior
        rw [hstep]
        exact hrun
      · rw [hlen]
        show (kvInsert m.arcs ab p').length = m.arcs.length
        exact kvInsert_length_present m.arcs ab p' (by rw [hp]; rfl)
      · intro k
        rw [hget k]
        by_cases hkab : k = ab
        · subst hkab
          have h1 : kvGet m1.arcs k = some p' := by
            show kvGet (kvInsert m.arcs k p') k = some p'
            exact kvGet_insert_self m.arcs k p'
          rw [h1, hp]
          by_cases hkr : k ∈ rest
          · simp [hkr, List.mem_cons, hp']
          · simp [hkr, List.mem_cons, hp']
        · have h1 : kvGet m1.arcs k = kvGet m.arcs k := by
            show kvGet (kvInsert m.arcs ab p') k = kvGet m.arcs k
            exact kvGet_insert_ne m.arcs ab k p' hkab
          rw [h1]
          cases hq : kvGet m.arcs k with
          | none => simp
          | some q =>
            have hmem : (k ∈ ab :: rest) ↔ (k ∈ rest) := by
              constructor
              · intro h
                rcases List.mem_cons.mp h with h | h
                · exact absurd h hkab
                · exact h
              · exact List.mem_cons_of_mem ab
            by_cases hkr : k ∈ rest
            · simp [hkr, hmem.mpr hkr, List.mem_cons]
            · have : ¬ (k ∈ ab :: rest) := fun h => hkr (hmem.mp h)
              simp [hkr, this]



/-- C7: face::remove with a valid cache for face f returns f's payload,
deletes exactly that face entry (counts of the other storages and keys are
untouched), sets the face field of each of f's interior arcs to none, and
changes nothing else: vertices and edges are unchanged, every arc's
next/previous/edge links are unchanged, and every other face is unchanged. -/
theorem face_remove_frame :
    ∀ (m : Mesh) (cache : FaceRemoveCache) (fp : FacePayload),
      kvGet m.faces.entries cache.abc = some fp →
      (∀ ab ∈ cache.arcs, (kvGet m.arcs ab).isSome) →
      (m.faces.entries.map Prod.fst).Nodup →
      ∃ m', face_remove m cache = (m', .ok fp) ∧
        m'.vertices = m.vertices ∧
        m'.edges = m.edges ∧
        m'.faces.gen = m.faces.gen ∧
        m'.arcs.length = m.arcs.length ∧
        (∀ k, kvGet m'.arcs k =
          (kvGet m.arcs k).map
            (fun p => if k ∈ cache.arcs then ⟨p.geometry, p.next, p.previous, p.edge, none⟩
                      else p)) ∧
        (∀ k, (kvGet m'.arcs k).map (fun p => (p.next, p.previous, p.edge)) =
          (kvGet m.arcs k).map (fun p => (p.next, p.previous, p.edge))) ∧
        kvGet m'.faces.entries cache.abc = none ∧
        (∀ f, f ≠ cache.abc → kvGet m'.faces.entries f = kvGet m.faces.entries f) ∧
        m'.faces.entries.length + 1 = m.faces.entries.length := by
  intro m cache fp hface harcs hnodup
  obtain ⟨m1, hrun, hv, he, hf, hlen, hget⟩ := disconnect_face_interior_spec cache.arcs m harcs
  have hface1 : kvGet m1.faces.entries cache.abc = some fp := by
    rw [hf]
    exact hface
  set m' : Mesh := { m1 with faces := ⟨m1.faces.gen, kvRemove m1.faces.entries cache.abc⟩ }
    with hm'
  have hcomp : face_remove m cache = (m', .ok fp) := by
    unfold face_remove
    rw [hrun]
    simp only [hface1]
  refine ⟨m', hcomp, hv, he, ?_, hlen, hget, ?_, ?_, ?_, ?_⟩
  · show m1.faces.gen = m.faces.gen
    rw [hf]
  · intro k
    rw [hget k]
    cases hq : kvGet m.arcs k with
    | none => simp
    | some q =>
      by_cases hkr : k ∈ cache.arcs
      · simp [hkr]
      · simp [hkr]
  · show kvGet (kvRemove m1.faces.entries cache.abc) cache.abc = none
    exact kvGet_remove_self m1.faces.entries cache.abc
  · intro f hfne
    show kvGet (kvRemove m1.faces.entries cache.abc) f = kvGet m.faces.entries f
    rw [kvGet_remove_ne m1.faces.entries cache.abc f hfne, hf]
  · show (kvRemove m1.faces.entries cache.abc).length + 1 = m.faces.entries.length
    have : (m1.faces.entries.map Prod.fst).Nodup := by
      rw [hf]
      exact hnodup
    rw [kvRemove_length_present m1.faces.entries cache.abc this (by rw [hface1]; rfl), hf]

/-- C7 witness: removing the square's only face. -/
theorem face_remove_frame_witness :
    ∃ m', face_remove squareMesh ⟨0, [(0, 1), (1, 2), (2, 3), (3, 0)]⟩ =
        (m', .ok ⟨0, (0, 1)⟩) ∧
      m'.vertices = squareMesh.vertices ∧
      m'.edges = squareMesh.edges ∧
      kvGet m'.faces.entries 0 = none ∧
      m'.faces.entries.length + 1 = squareMesh.faces.entries.length := by
  obtain ⟨m', hrun, hv, he, _, _, _, _, hfo, _, hflen⟩ :=
    face_remove_frame squareMesh ⟨0, [(0, 1), (1, 2), (2, 3), (3, 0)]⟩ ⟨0, (0, 1)⟩
      (by decide) (by decide) (by decide)
  exact ⟨m', hrun, hv, he, hfo, hflen⟩

/-- A completed triangulation leaves its final face with arity at most 3. -/
theorem triangulateF_post (fuel : Nat) :
    ∀ (m : Mesh) (abc : FaceKey) (r : Mesh × FaceKey),
      triangulateF m abc fuel = some r → faceArity r.1 r.2 ≤ 3 := by
  induction fuel with
  | zero =>
    intro m abc r h
    unfold triangulateF at h
    by_cases hgt : 3 < faceArity m abc
    · rw [if_pos hgt] at h
      cases h
    · rw [if_neg hgt] at h
      cases h
      show faceArity m abc ≤ 3
      omega
  | succ n ih =>
    intro m abc r h
    unfold triangulateF at h
    by_cases hgt : 3 < faceArity m abc
    · rw [if_pos hgt] at h
      cases hsplit : faceViewSplit m abc (.byIndex 0) (.byIndex 2) with
      | mk m1 res =>
        rw [hsplit] at h
        cases res with
        | ok ab =>
          have h2 : (match intoFaceOf m1 ab with
            | some abc1 => triangulateF m1 abc1 n
            | none => none) = some r := h
          cases hfo : intoFaceOf m1 ab with
          | some abc1 =>
            rw [hfo] at h2
            exact ih m1 abc1 r h2
          | none =>
            rw [hfo] at h2
            cases h2
        | error e =>
          have h2 : (none : Option (Mesh × FaceKey)) = some r := h
          cases h2
    · rw [if_neg hgt] at h
      cases h
      show faceArity m abc ≤ 3
      omega

/-- C8: triangulate is idempotent - whenever triangulate completes (the
source's unbounded while loop terminating is modelled as the fuel sufficing
and every split succeeding), running triangulate again on its result returns
that result unchanged at any fuel; and a face whose arity is already 3 is
left entirely untouched (same mesh, same face). -/
theorem triangulate_idempotent :
    (∀ (fuel : Nat) (m : Mesh) (abc : FaceKey) (r : Mesh × FaceKey),
      triangulateF m abc fuel = some r →
      ∀ fuel2, triangulateF r.1 r.2 fuel2 = some r) ∧
    (∀ (m : Mesh) (abc : FaceKey) (fuel : Nat),
      faceArity m abc = 3 → triangulateF m abc fuel = some (m, abc)) := by
  have hstop : ∀ (m : Mesh) (abc : FaceKey), ¬ 3 < faceArity m abc →
      ∀ fuel, triangulateF m abc fuel = some (m, abc) := by
    intro m abc h fuel
    cases fuel with
    | zero =>
      unfold triangulateF
      rw [if_neg h]
    | succ n =>
      unfold triangulateF
      rw [if_neg h]
  constructor
  · intro fuel m abc r h fuel2
    have hle := triangulateF_post fuel m abc r h
    have := hstop r.1 r.2 (by omega) fuel2
    rw [this]
  · intro m abc fuel h
    exact hstop m abc (by omega) fuel

/-- C8 witness: triangulating the square face completes and re-running
triangulate is the identity; the arity-3 face of the split square is left
untouched. -/
theorem triangulate_idempotent_witness :
    triangulateF squareMesh 0 1 = some ((triangulateF squareMesh 0 1).getD (defaultMesh, 0)) ∧
    triangulateF ((triangulateF squareMesh 0 1).getD (defaultMesh, 0)).1
        ((triangulateF squareMesh 0 1).getD (defaultMesh, 0)).2 5 =
      some ((triangulateF squareMesh 0 1).getD (defaultMesh, 0)) ∧
    faceArity squareSplit.1 1 = 3 ∧
    triangulateF squareSplit.1 1 7 = some (squareSplit.1, 1) := by
  refine ⟨by decide, ?_, by decide, ?_⟩
  · exact triangulate_idempotent.1 1 squareMesh 0 _ (by decide) 5
  · exact triangulate_idempotent.2 squareSplit.1 1 7 (by decide)

/-- Path::push_front either leaves the path unchanged (on any error) or
pushes exactly one arc onto the front. -/
theorem path_push_front_cases (m : Mesh) (p : PathS) (sel : Selector) :
    (path_push_front m p sel).1 = p ∨
      ∃ bx, (path_push_front m p sel).1 = ⟨bx :: p.keys⟩ := by
  unfold path_push_front
  by_cases hc : path_is_closed p
  · rw [if_pos hc]
    left
    rfl
  · rw [if_neg hc]
    cases hh : p.keys.head? with
    | none => left; rfl
    | some frontArc =>
      dsimp only
      cases hbx : resolve_front m frontArc.2 sel with
      | error e => left; rfl
      | ok bx =>
        dsimp only
        by_cases hint : p.keys.any (fun k => decide (k.2 = bx.2))
        · rw [if_pos hint]
          left
          rfl
        · rw [if_neg hint]
          right
          exact ⟨bx, rfl⟩

/-- Path::push_back either leaves the path unchanged (on any error) or pushes
exactly one arc onto the back. -/
theorem path_push_back_cases (m : Mesh) (p : PathS) (sel : Selector) :
    (path_push_back m p sel).1 = p ∨
      ∃ xa, (path_push_back m p sel).1 = ⟨p.keys ++ [xa]⟩ := by
  unfold path_push_back
  by_cases hc : path_is_closed p
  · rw [if_pos hc]
    left
    rfl
  · rw [if_neg hc]
    cases hh : p.keys.getLast? with
    | none => left; rfl
    | some backArc =>
      dsimp only
      cases hxa : resolve_back m backArc.1 sel with
      | error e => left; rfl
      | ok xa =>
        dsimp only
        by_cases hint : p.keys.any (fun k => decide (k.1 = xa.1))
        · rw [if_pos hint]
          left
          rfl
        · rw [if_neg hint]
          right
          exact ⟨xa, rfl⟩

/-- A successful push_front returns the pushed arc and conses it onto the
keys. -/
theorem path_push_front_ok_shape (m : Mesh) (p : PathS) (sel : Selector)
    (p1 : PathS) (k : ArcKey) (h : path_push_front m p sel = (p1, .ok k)) :
    p1 = ⟨k :: p.keys⟩ := by
  unfold path_push_front at h
  by_cases hc : path_is_closed p
  · rw [if_pos hc] at h
    cases h
  · rw [if_neg hc] at h
    cases hh : p.keys.head? with
    | none =>
      rw [hh] at h
      cases h
    | some frontArc =>
      rw [hh] at h
      dsimp only at h
      cases hbx : resolve_front m frontArc.2 sel with
      | error e =>
        rw [hbx] at h
        cases h
      | ok bx =>
        rw [hbx] at h
        dsimp only at h
        by_cases hint : p.keys.any (fun kk => decide (kk.2 = bx.2))
        · simp only [hint, if_true] at h
          cases h
        · simp only [hint, if_false] at h
          have h1 := congrArg Prod.fst h
          have h2 := congrArg Prod.snd h
          simp at h1 h2
          rw [← h1, h2]

/-- Path::pop_back on a single-arc path returns none and leaves the path
unchanged. -/
theorem path_pop_back_one (p : PathS) (h : p.keys.length = 1) :
    path_pop_back p = (p, none) := by
  unfold path_pop_back
  rw [if_neg (by omega)]

/-- Path::pop_front on a single-arc path returns none and leaves the path
unchanged. -/
theorem path_pop_front_one (p : PathS) (h : p.keys.length = 1) :
    path_pop_front p = (p, none) := by
  unfold path_pop_front
  rw [if_neg (by omega)]

/-- Any single push or pop preserves nonemptiness of the path. -/
theorem path_op_preserves (m : Mesh) (p : PathS) (op : PathOp)
    (h : 1 ≤ p.keys.length) :
    1 ≤ (match op with
         | .pushBack sel => (path_push_back m p sel).1
         | .pushFront sel => (path_push_front m p sel).1
         | .popBack => (path_pop_back p).1
         | .popFront => (path_pop_front p).1).keys.length := by
  cases op with
  | pushBack sel =>
    show 1 ≤ (path_push_back m p sel).1.keys.length
    rcases path_push_back_cases m p sel with hsame | ⟨xa, hgrow⟩
    · rw [hsame]
      exact h
    · rw [hgrow]
      simp
  | pushFront sel =>
    show 1 ≤ (path_push_front m p sel).1.keys.length
    rcases path_push_front_cases m p sel with hsame | ⟨bx, hgrow⟩
    · rw [hsame]
      exact h
    · rw [hgrow]
      simp
  | popBack =>
    show 1 ≤ (path_pop_back p).1.keys.length
    unfold path_pop_back
    by_cases hl : 1 < p.keys.length
    · rw [if_pos hl]
      simp [List.length_dropLast]
      omega
    · rw [if_neg hl]
      exact h
  | popFront =>
    show 1 ≤ (path_pop_front p).1.keys.length
    unfold path_pop_front
    by_cases hl : 1 < p.keys.length
    · rw [if_pos hl]
      simp [List.length_tail]
      omega
    · rw [if_neg hl]
      exact h

/-- Any sequence of pushes and pops preserves nonemptiness of the path. -/
theorem runPathOps_preserves (m : Mesh) (ops : List PathOp) :
    ∀ p : PathS, 1 ≤ p.keys.length → 1 ≤ (runPathOps m p ops).keys.length := by
  induction ops with
  | nil =>
    intro p h
    exact h
  | cons op ops ih =>
    intro p h
    unfold runPathOps
    exact ih _ (path_op_preserves m p op h)

/-- The push_front loop of Path::bind never shrinks the path. -/
theorem path_push_front_fold_min (m : Mesh) (ks : List VertexKey) :
    ∀ (p0 p : PathS), path_push_front_fold m p0 ks = .ok p →
      p0.keys.length ≤ p.keys.length := by
  induction ks with
  | nil =>
    intro p0 p h
    cases h
    exact Nat.le_refl _
  | cons k rest ih =>
    intro p0 p h
    unfold path_push_front_fold at h
    cases hpush : path_push_front m p0 (.byKey k) with
    | mk p1 res =>
      rw [hpush] at h
      cases res with
      | error e => cases h
      | ok kk =>
        have hshape := path_push_front_ok_shape m p0 (.byKey k) p1 kk hpush
        have := ih p1 p h
        rw [hshape] at this
        simp at this
        omega



/-- C10: a path always holds at least one arc - Path::bind rejects fewer than
two vertex keys with TopologyMalformed before any storage lookup, pop_back and
pop_front on a single-arc path return none and leave the path unchanged, a
successful bind yields a nonempty path, and no sequence of push/pop
operations can empty a nonempty path. -/
theorem path_nonempty_invariant :
    (∀ (m : Mesh) (ks : List VertexKey), ks.length < 2 →
      pathBind m ks = .error .topologyMalformed) ∧
    (∀ p : PathS, p.keys.length = 1 →
      path_pop_back p = (p, none) ∧ path_pop_front p = (p, none)) ∧
    (∀ (m : Mesh) (ks : List VertexKey) (p : PathS),
      pathBind m ks = .ok p → 1 ≤ p.keys.length) ∧
    (∀ (m : Mesh) (p : PathS) (ops : List PathOp),
      1 ≤ p.keys.length → 1 ≤ (runPathOps m p ops).keys.length) := by
  refine ⟨?_, ?_, ?_, ?_⟩
  · intro m ks h
    match ks with
    | [] => rfl
    | [a] => rfl
    | a :: b :: rest => exact absurd h (by simp only [List.length_cons]; omega)
  · intro p h
    exact ⟨path_pop_back_one p h, path_pop_front_one p h⟩
  · intro m ks p h
    match ks with
    | [] => simp [pathBind] at h
    | [a] => simp [pathBind] at h
    | a :: b :: rest =>
      unfold pathBind at h
      dsimp only at h
      cases hg : kvGet m.arcs (a, b) with
      | none =>
        rw [hg] at h
        cases h
      | some q =>
        rw [hg] at h
        have hmin := path_push_front_fold_min m rest ⟨[(a, b)]⟩ p h
        simpa using hmin
  · intro m p ops h
    exact runPathOps_preserves m ops p h

/-- C10 witness: binding and popping concrete paths on the square mesh. -/
theorem path_nonempty_invariant_witness :
    (([5] : List VertexKey).length < 2 ∧
      pathBind squareMesh [5] = .error .topologyMalformed) ∧
    ((⟨[(0, 1)]⟩ : PathS).keys.length = 1 ∧
      path_pop_back ⟨[(0, 1)]⟩ = (⟨[(0, 1)]⟩, none) ∧
      path_pop_front ⟨[(0, 1)]⟩ = (⟨[(0, 1)]⟩, none)) ∧
    (pathBind squareMesh [0, 1, 2] = .ok ⟨[(1, 2), (0, 1)]⟩ ∧
      1 ≤ (⟨[(1, 2), (0, 1)]⟩ : PathS).keys.length) ∧
    1 ≤ (runPathOps squareMesh ⟨[(0, 1)]⟩
          [.popBack, .popFront, .pushFront (.byKey 2)]).keys.length := by
  refine ⟨⟨by decide, ?_⟩, ⟨by decide, ?_⟩, ⟨by decide, ?_⟩, ?_⟩
  · exact path_nonempty_invariant.1 squareMesh [5] (by decide)
  · exact path_nonempty_invariant.2.1 ⟨[(0, 1)]⟩ (by decide)
  · exact path_nonempty_invariant.2.2.1 squareMesh [0, 1, 2] ⟨[(1, 2), (0, 1)]⟩ (by decide)
  · exact path_nonempty_invariant.2.2.2 squareMesh ⟨[(0, 1)]⟩
      [.popBack, .popFront, .pushFront (.byKey 2)] (by decide)

theorem dedup_length_iff (l : List VertexKey) :
    l.dedup.length = l.length ↔ l.Nodup := by
  constructor
  · intro h
    have heq := (List.dedup_sublist l).eq_of_length h
    rw [← heq]
    exact List.nodup_dedup l
  · intro h
    rw [List.Nodup.dedup h]

theorem filter_length_iff (l : List VertexKey) (p : VertexKey → Bool) :
    (l.filter p).length = l.length ↔ ∀ k ∈ l, p k := by
  constructor
  · intro h
    have hs : List.Sublist (l.filter p) l := List.filter_sublist l
    exact List.filter_eq_self.mp (hs.eq_of_length h)
  · intro h
    rw [List.filter_eq_self.mpr h]

/-- Badness of one (previous, next) pair of optionally-bound candidate arcs in
the snapshot precondition loop: previous exists and already carries a face, or
previous exists, next is missing, and the next link of previous reaches a
vertex of the perimeter set. -/
def pairBad (m : Mesh) (set : List VertexKey)
    (pr : Option (ArcKey × ArcPayload) × Option (ArcKey × ArcPayload)) : Prop :=
  ∃ pv, pr.1 = some pv ∧
    (pv.2.face.isSome ∨
      (pr.2 = none ∧ ∃ nk, reachable_next_arc m pv.2 = some nk ∧ nk.2 ∈ set))

theorem face_insert_check_cases (m : Mesh) (set : List VertexKey) :
    ∀ pairs,
      (face_insert_check m set pairs = .ok () ∧ ∀ pr ∈ pairs, ¬ pairBad m set pr) ∨
      (face_insert_check m set pairs = .error .topologyConflict ∧
        ∃ pr ∈ pairs, pairBad m set pr) := by
  intro pairs
  induction pairs with
  | nil =>
    left
    exact ⟨rfl, by simp⟩
  | cons hd rest ih =>
    obtain ⟨previous, next⟩ := hd
    cases previous with
    | none =>
      have hnb : ¬ pairBad m set (none, next) := by
        rintro ⟨pv, hpv, _⟩
        cases hpv
      have hred : face_insert_check m set ((none, next) :: rest) =
          face_insert_check m set rest := by
        conv_lhs => unfold face_insert_check
      rcases ih with ⟨hok, hall⟩ | ⟨herr, pr0, hmem, hbad⟩
      · left
        refine ⟨by rw [hred]; exact hok, ?_⟩
        intro q hq
        rcases List.mem_cons.mp hq with h | h
        · rw [h]
          exact hnb
        · exact hall q h
      · right
        exact ⟨by rw [hred]; exact herr, pr0, List.mem_cons_of_mem _ hmem, hbad⟩
    | some pv =>
      by_cases hface : pv.2.face.isSome
      · right
        constructor
        · conv_lhs => unfold face_insert_check
          dsimp only
          rw [if_pos hface]
        · exact ⟨(some pv, next), List.mem_cons_self _ _, ⟨pv, rfl, Or.inl hface⟩⟩
      · cases next with
        | some nv =>
          have hred : face_insert_check m set ((some pv, some nv) :: rest) =
              face_insert_check m set rest := by
            conv_lhs => unfold face_insert_check
            dsimp only
            rw [if_neg hface]
          have hnb : ¬ pairBad m set (some pv, some nv) := by
            rintro ⟨pv', hpv', hin | ⟨hnone, _⟩⟩
            · cases hpv'
              exact hface hin
            · cases hnone
          rcases ih with ⟨hok, hall⟩ | ⟨herr, pr0, hmem, hbad⟩
          · left
            refine ⟨by rw [hred]; exact hok, ?_⟩
            intro q hq
            rcases List.mem_cons.mp hq with h | h
            · rw [h]
              exact hnb
            · exact hall q h
          · right
            exact ⟨by rw [hred]; exact herr, pr0, List.mem_cons_of_mem _ hmem, hbad⟩
        | none =>
          cases hr : reachable_next_arc m pv.2 with
          | none =>
            have hred : face_insert_check m set ((some pv, none) :: rest) =
                face_insert_check m set rest := by
              conv_lhs => unfold face_insert_check
              dsimp only
              rw [if_neg hface, hr]
            have hnb : ¬ pairBad m set (some pv, none) := by
              rintro ⟨pv', hpv', hin | ⟨_, nk, hnk, _⟩⟩
              · cases hpv'
                exact hface hin
              · cases hpv'
                rw [hr] at hnk
                cases hnk
            rcases ih with ⟨hok, hall⟩ | ⟨herr, pr0, hmem, hbad⟩
            · left
              refine ⟨by rw [hred]; exact hok, ?_⟩
              intro q hq
              rcases List.mem_cons.mp hq with h | h
              · rw [h]
                exact hnb
              · exact hall q h
            · right
              exact ⟨by rw [hred]; exact herr, pr0, List.mem_cons_of_mem _ hmem, hbad⟩
          | some nk =>
            by_cases hin : nk.2 ∈ set
            · right
              constructor
              · conv_lhs => unfold face_insert_check
                dsimp only
                rw [if_neg hface, hr]
                dsimp only
                rw [if_pos hin]
              · exact ⟨(some pv, none), List.mem_cons_self _ _,
                  ⟨pv, rfl, Or.inr ⟨rfl, nk, hr, hin⟩⟩⟩
            · have hred : face_insert_check m set ((some pv, none) :: rest) =
                  face_insert_check m set rest := by
                conv_lhs => unfold face_insert_check
                dsimp only
                rw [if_neg hface, hr]
                dsimp only
                rw [if_neg hin]
              have hnb : ¬ pairBad m set (some pv, none) := by
                rintro ⟨pv', hpv', hfc | ⟨_, nk', hnk', hin'⟩⟩
                · cases hpv'
                  exact hface hfc
                · cases hpv'
                  rw [hr] at hnk'
                  cases hnk'
                  exact hin hin'
              rcases ih with ⟨hok, hall⟩ | ⟨herr, pr0, hmem, hbad⟩
              · left
                refine ⟨by rw [hred]; exact hok, ?_⟩
                intro q hq
                rcases List.mem_cons.mp hq with h | h
                · rw [h]
                  exact hnb
                · exact hall q h
              · right
                exact ⟨by rw [hred]; exact herr, pr0, List.mem_cons_of_mem _ hmem, hbad⟩

theorem cyclicPairs_map {α β : Type} (f : α → β) (l : List α) :
    cyclicPairs (l.map f) = (cyclicPairs l).map (fun pr => (f pr.1, f pr.2)) := by
  cases l with
  | nil => rfl
  | cons x xs =>
    show ((x :: xs).map f).zip (xs.map f ++ [f x]) = _
    have h2 : xs.map f ++ [f x] = (xs ++ [x]).map f := by simp
    rw [h2, List.zip_map]
    show _ = ((x :: xs).zip (xs ++ [x])).map (fun pr => (f pr.1, f pr.2))
    congr 1

theorem cyclicPairs_map_fst {α : Type} (l : List α) :
    (cyclicPairs l).map Prod.fst = l := by
  cases l with
  | nil => rfl
  | cons x xs =>
    show ((x :: xs).zip (xs ++ [x])).map Prod.fst = x :: xs
    exact List.map_fst_zip _ _ (by simp)

theorem cyclicPairs_fst_mem {α : Type} {l : List α} {pr : α × α}
    (h : pr ∈ cyclicPairs l) : pr.1 ∈ l := by
  rw [← cyclicPairs_map_fst l]
  exact List.mem_map_of_mem Prod.fst h

theorem cyclicPairs_exists_fst {α : Type} {l : List α} {k : α} (h : k ∈ l) :
    ∃ q ∈ cyclicPairs l, q.1 = k := by
  rw [← cyclicPairs_map_fst l] at h
  obtain ⟨q, hq, hk⟩ := List.mem_map.mp h
  exact ⟨q, hq, hk⟩

/-- The TopologyConflict condition of the claim, stated over the perimeter:
some would-be interior arc (a cyclic pair of perimeter vertices) already
belongs to a face, or some consecutive pair of candidate arcs has its first
arc present, its second arc absent, and the first arc's current next neighbor
ending at a vertex already in the perimeter. -/
def conflictSpec (m : Mesh) (perimeter : List VertexKey) : Prop :=
  (∃ k ∈ cyclicPairs perimeter, ∃ p, kvGet m.arcs k = some p ∧ p.face.isSome) ∨
  (∃ q ∈ cyclicPairs (cyclicPairs perimeter), ∃ p,
      kvGet m.arcs q.1 = some p ∧ kvGet m.arcs q.2 = none ∧
      ∃ nk, reachable_next_arc m p = some nk ∧ nk.2 ∈ perimeter)

theorem conflictSpec_iff (m : Mesh) (perimeter : List VertexKey) :
    (∃ pr ∈ cyclicPairs ((cyclicPairs perimeter).map (fun k => boundArc m k)),
        pairBad m perimeter pr) ↔ conflictSpec m perimeter := by
  rw [cyclicPairs_map]
  constructor
  · rintro ⟨pr, hpr, pv, hpv, hbad⟩
    obtain ⟨q, hq, hpq⟩ := List.mem_map.mp hpr
    subst hpq
    simp only at hpv
    obtain ⟨p, hp, hpvp⟩ := Option.map_eq_some.mp hpv
    rcases hbad with hface | ⟨hnone, nk, hnk, hin⟩
    · left
      refine ⟨q.1, cyclicPairs_fst_mem hq, p, hp, ?_⟩
      rw [← hpvp] at hface
      exact hface
    · right
      refine ⟨q, hq, p, hp, ?_, nk, ?_, hin⟩
      · have hnone2 : (kvGet m.arcs q.2).map (fun p => (q.2, p)) = none := hnone
        exact Option.map_eq_none.mp hnone2
      · rw [← hpvp] at hnk
        exact hnk
  · rintro (⟨k, hk, p, hp, hface⟩ | ⟨q, hq, p, hp1, hp2, nk, hnk, hin⟩)
    · obtain ⟨q, hq, hq1⟩ := cyclicPairs_exists_fst hk
      refine ⟨(boundArc m q.1, boundArc m q.2),
        List.mem_map_of_mem _ hq, (q.1, p), ?_, Or.inl hface⟩
      show (kvGet m.arcs q.1).map (fun p => (q.1, p)) = some (q.1, p)
      rw [hq1, hp]
      rfl
    · refine ⟨(boundArc m q.1, boundArc m q.2),
        List.mem_map_of_mem _ hq, (q.1, p), ?_, Or.inr ⟨?_, nk, hnk, hin⟩⟩
      · show (kvGet m.arcs q.1).map (fun p => (q.1, p)) = some (q.1, p)
        rw [hp1]
        rfl
      · show (kvGet m.arcs q.2).map (fun p => (q.2, p)) = none
        rw [hp2]
        rfl

/-- C4: FaceInsertCache::snapshot, given a perimeter of at least 3 vertex
keys, fails with TopologyMalformed exactly when the keys are not pairwise
distinct; for distinct keys it fails with TopologyNotFound exactly when some
key refers to no vertex; for distinct existing keys it fails with
TopologyConflict exactly when some would-be interior arc already belongs to a
face or a missing interior arc's existing predecessor has a next neighbor
leading back into the perimeter; a perimeter passing all checks yields the
connectivity cache. The embedding is a pure function of the mesh, so the
snapshot mutates nothing. -/
theorem face_insert_snapshot_spec (m : Mesh) (perimeter : List VertexKey)
    (_harity : 3 ≤ perimeter.length) :
    (faceInsertSnapshot m perimeter = .error .topologyMalformed ↔ ¬ perimeter.Nodup) ∧
    (perimeter.Nodup →
      (faceInsertSnapshot m perimeter = .error .topologyNotFound ↔
        ∃ k ∈ perimeter, kvGet m.vertices.entries k = none)) ∧
    (perimeter.Nodup → (∀ k ∈ perimeter, (kvGet m.vertices.entries k).isSome) →
      (faceInsertSnapshot m perimeter = .error .topologyConflict ↔
        conflictSpec m perimeter)) ∧
    (perimeter.Nodup → (∀ k ∈ perimeter, (kvGet m.vertices.entries k).isSome) →
      ¬ conflictSpec m perimeter →
      faceInsertSnapshot m perimeter =
        .ok ⟨perimeter,
             perimeter.map (fun v => (v, incoming_arc_keys m v)),
             perimeter.map (fun v => (v, outgoing_arc_keys m v))⟩) := by
  by_cases hnd : perimeter.Nodup
  · have h1 : ¬ perimeter.dedup.length ≠ perimeter.length :=
      not_not_intro ((dedup_length_iff perimeter).mpr hnd)
    by_cases hall : ∀ k ∈ perimeter, (kvGet m.vertices.entries k).isSome
    · have h2 : ¬ (perimeter.filter
          (fun k => (kvGet m.vertices.entries k).isSome)).length ≠ perimeter.length :=
        not_not_intro ((filter_length_iff perimeter _).mpr hall)
      rcases face_insert_check_cases m perimeter
          (cyclicPairs ((cyclicPairs perimeter).map (fun k => boundArc m k))) with
        ⟨hok, hnb⟩ | ⟨herr, pr, hmem, hbad⟩
      · have hsnap : faceInsertSnapshot m perimeter =
            .ok ⟨perimeter,
                 perimeter.map (fun v => (v, incoming_arc_keys m v)),
                 perimeter.map (fun v => (v, outgoing_arc_keys m v))⟩ := by
          unfold faceInsertSnapshot
          rw [if_neg h1, if_neg h2, hok]
        refine ⟨?_, ?_, ?_, ?_⟩
        · rw [hsnap]
          exact iff_of_false (by simp) (not_not_intro hnd)
        · intro _
          rw [hsnap]
          refine iff_of_false (by simp) ?_
          rintro ⟨k, hk, hkn⟩
          have hks := hall k hk
          rw [hkn] at hks
          cases hks
        · intro _ _
          rw [hsnap]
          refine iff_of_false (by simp) ?_
          intro hc
          obtain ⟨q, hqm, hqb⟩ := (conflictSpec_iff m perimeter).mpr hc
          exact (hnb q hqm) hqb
        · intro _ _ _
          exact hsnap
      · have hsnap : faceInsertSnapshot m perimeter = .error .topologyConflict := by
          unfold faceInsertSnapshot
          rw [if_neg h1, if_neg h2, herr]
        have hc : conflictSpec m perimeter :=
          (conflictSpec_iff m perimeter).mp ⟨pr, hmem, hbad⟩
        refine ⟨?_, ?_, ?_, ?_⟩
        · rw [hsnap]
          exact iff_of_false (by simp) (not_not_intro hnd)
        · intro _
          rw [hsnap]
          refine iff_of_false (by simp) ?_
          rintro ⟨k, hk, hkn⟩
          have hks := hall k hk
          rw [hkn] at hks
          cases hks
        · intro _ _
          rw [hsnap]
          exact iff_of_true rfl hc
        · intro _ _ hnc
          exact absurd hc hnc
    · have h2 : (perimeter.filter
          (fun k => (kvGet m.vertices.entries k).isSome)).length ≠ perimeter.length :=
        fun heq => hall ((filter_length_iff perimeter _).mp heq)
      have hsnap : faceInsertSnapshot m perimeter = .error .topologyNotFound := by
        unfold faceInsertSnapshot
        rw [if_neg h1, if_pos h2]
      obtain ⟨k, hk, hkn⟩ : ∃ k ∈ perimeter, kvGet m.vertices.entries k = none := by
        push_neg at hall
        obtain ⟨k, hk, hkn⟩ := hall
        exact ⟨k, hk, Option.not_isSome_iff_eq_none.mp hkn⟩
      refine ⟨?_, ?_, ?_, ?_⟩
      · rw [hsnap]
        exact iff_of_false (by simp) (not_not_intro hnd)
      · intro _
        rw [hsnap]
        exact iff_of_true rfl ⟨k, hk, hkn⟩
      · intro _ hp
        exact absurd hp hall
      · intro _ hp _
        exact absurd hp hall
  · have h1 : perimeter.dedup.length ≠ perimeter.length :=
      fun heq => hnd ((dedup_length_iff perimeter).mp heq)
    have hsnap : faceInsertSnapshot m perimeter = .error .topologyMalformed := by
      unfold faceInsertSnapshot
      rw [if_pos h1]
    refine ⟨?_, ?_, ?_, ?_⟩
    · rw [hsnap]
      exact iff_of_true rfl hnd
    · intro hp
      exact absurd hp hnd
    · intro hp _
      exact absurd hp hnd
    · intro hp _ _
      exact absurd hp hnd

/-- C4 witness: on the unit square, the perimeter [0, 1, 2] has length 3 and
distinct existing keys, and the snapshot fails with TopologyConflict (arc
(0, 1) already belongs to the square face), as the characterization
predicts. -/
theorem face_insert_snapshot_spec_witness :
    3 ≤ ([0, 1, 2] : List VertexKey).length ∧
      ([0, 1, 2] : List VertexKey).Nodup ∧
      (∀ k ∈ ([0, 1, 2] : List VertexKey),
        (kvGet squareMesh.vertices.entries k).isSome) ∧
      faceInsertSnapshot squareMesh [0, 1, 2] = .error .topologyConflict ∧
      conflictSpec squareMesh [0, 1, 2] := by
  refine ⟨by decide, by decide, by decide, by decide, ?_⟩
  exact ((face_insert_snapshot_spec squareMesh [0, 1, 2] (by decide)).2.2.1
    (by decide) (by decide)).mp (by decide)

end Plexus
